import Mathlib

/-!
A shallow embedding of `Simulator.cpp`.

The C++ class `CPU` is a record of machine integers and two fixed arrays.  It is embedded as a
structure of unbounded numbers: every place where the C++ converts to a fixed-width type is an
explicit conversion (`toU32`, `toI32`, `toI16`, `toU64`) or an explicit `% 2 ^ w`.

* `int32_t` arithmetic is two's complement: the sum is computed exactly and converted back
  with `toI32` (the behaviour of every mainstream target; the spec calls it "silent wraparound").
* the arrays `registers[32]` and `memory[4096]` are total maps from an index to a cell.  C++ array
  indexing is unchecked, so a read or write at an index is a read or write of the map at that
  index; cells `0 .. 31` (resp. `0 .. 4095`) are the cells of the array, the others stand for
  whatever lies outside it.  "Every register" and "every memory byte" below are the cells of
  the arrays.  An access outside an array is undefined behaviour in C++: `executeChecked` and
  `runChecked` are `execute` and `run` with no result (`none`) when one is made, and the
  statements about whole runs that can reach one are made about `runChecked`.
* the text written to `cout` is not part of the state; the lines `execute` writes are given by
  the separate function `executeOutput`, with the stream's rendering of numbers as parameters.
* library code the program calls (the stream extraction of `loadProgram`) is a parameter.
-/

namespace Simulator

/-- `const int MEMORY_SIZE = 4096;` -/
def MEMORY_SIZE : Nat := 4096

/-- `const int NUM_REGISTERS = 32;` -/
def NUM_REGISTERS : Nat := 32

/-- Conversion of an integer value to `uint32_t`. -/
def toU32 (x : Int) : Nat := (x % 4294967296).toNat

/-- Conversion of an integer value to `uint64_t`. -/
def toU64 (x : Int) : Nat := (x % 18446744073709551616).toNat

/-- Conversion of an integer value to `int32_t` (two's complement). -/
def toI32 (x : Int) : Int := (x + 2147483648) % 4294967296 - 2147483648

/-- Conversion of an integer value to `int16_t` (two's complement). -/
def toI16 (x : Int) : Int := (x + 32768) % 65536 - 32768

/-- The data members of `class CPU`. -/
structure CPU where
  PC : Nat
  IR : Nat
  registers : Nat → Int
  memory : Nat → Nat
  clockCycles : Nat
  running : Bool
  opcode : Nat
  rs : Nat
  rt : Nat
  rd : Nat
  shamt : Nat
  funct : Nat
  immediate : Int

/-- The constructor `CPU::CPU()`, applied to the raw object `u`: it initialises `PC`, `IR`,
`clockCycles`, `running` and the cells of the two arrays; the decoded fields are left as they
are (the constructor does not mention them). -/
def CPU.new (u : CPU) : CPU :=
  { u with
    PC := 0
    IR := 0
    clockCycles := 0
    running := true
    registers := fun i => if i < NUM_REGISTERS then 0 else u.registers i
    memory := fun i => if i < MEMORY_SIZE then 0 else u.memory i }

/-- The shape of the four byte stores of `executeSW`: an octet of the signed value,
`(value >> sh) & 0xFF`, with `>>` the arithmetic shift of `int32_t`. -/
def octetI (value : Int) (sh : Nat) : Nat := (Int.land (value >>> sh) 0xFF).toNat

/-- The body of the `while (getline ...)` loop of `CPU::loadProgram` from the point where the
line has been parsed into `instruction`: the word is stored big-endian at `address` when it
fits, and `address` advances by 4. The pair is (machine, local variable `address`). -/
def loadInstruction (st : CPU × Nat) (instruction : Nat) : CPU × Nat :=
  let s := st.1
  let address := st.2
  if (address + 3) % 4294967296 < MEMORY_SIZE then
    let m1 := Function.update s.memory address ((instruction >>> 24) &&& 0xFF)
    let m2 := Function.update m1 ((address + 1) % 4294967296) ((instruction >>> 16) &&& 0xFF)
    let m3 := Function.update m2 ((address + 2) % 4294967296) ((instruction >>> 8) &&& 0xFF)
    let m4 := Function.update m3 ((address + 3) % 4294967296) (instruction &&& 0xFF)
    ({ s with memory := m4 }, (address + 4) % 4294967296)
  else
    (s, address)

/-- The effect of `CPU::loadProgram` on the machine for a file whose successfully parsed lines
are the 32-bit words `ws`, in order (`address` starts at 0). -/
def loadWords (ws : List Nat) (s : CPU) : CPU :=
  (ws.foldl loadInstruction (s, 0)).1

/-- `CPU::fetch`. -/
def fetch (s : CPU) : CPU :=
  if s.PC ≥ MEMORY_SIZE - 3 then
    { s with running := false }
  else
    { s with
      IR := ((s.memory s.PC <<< 24) ||| (s.memory ((s.PC + 1) % 4294967296) <<< 16) |||
             (s.memory ((s.PC + 2) % 4294967296) <<< 8) |||
             s.memory ((s.PC + 3) % 4294967296)) % 4294967296
      PC := (s.PC + 4) % 4294967296 }

/-- `CPU::decode`. -/
def decode (s : CPU) : CPU :=
  { s with
    opcode := (s.IR >>> 26) &&& 0x3F
    rs := (s.IR >>> 21) &&& 0x1F
    rt := (s.IR >>> 16) &&& 0x1F
    rd := (s.IR >>> 11) &&& 0x1F
    shamt := (s.IR >>> 6) &&& 0x1F
    funct := s.IR &&& 0x3F
    immediate := toI16 ((s.IR &&& 0xFFFF : Nat) : Int) }

/-- `CPU::executeRType`. -/
def executeRType (s : CPU) : CPU :=
  if s.funct = 0x20 then
    { s with registers :=
        Function.update s.registers s.rd (toI32 (s.registers s.rs + s.registers s.rt)) }
  else if s.funct = 0x22 then
    { s with registers :=
        Function.update s.registers s.rd (toI32 (s.registers s.rs - s.registers s.rt)) }
  else
    s

/-- `CPU::executeADDI`. -/
def executeADDI (s : CPU) : CPU :=
  let signExtImm : Int := toI32 (toI16 s.immediate)
  { s with registers := Function.update s.registers s.rt (toI32 (s.registers s.rs + signExtImm)) }

/-- `CPU::executeBEQ`. -/
def executeBEQ (s : CPU) : CPU :=
  if s.registers s.rs = s.registers s.rt then
    let signExtImm : Int := toI32 (toI16 s.immediate)
    { s with PC := (s.PC + toU32 (toI32 (signExtImm <<< (2 : Int)))) % 4294967296 }
  else
    s

/-- The local variable `address` of `executeSW` and `executeLW`:
`uint32_t address = registers[rs] + signExtImm;`. -/
def effectiveAddress (s : CPU) : Nat :=
  let signExtImm : Int := toI32 (toI16 s.immediate)
  toU32 (toI32 (s.registers s.rs + signExtImm))

/-- `CPU::executeSW`. The test `address + 3 < MEMORY_SIZE` is evaluated in `uint32_t`. When the
sum wraps (`address` is `0xFFFFFFFD .. 0xFFFFFFFF`) the test lets through a store whose first
index is outside the array: this function then writes the cell of the total map at that index
and returns; that the C++ has no defined outcome there is recorded by `memoryAccessOutside`
and `executeChecked`. -/
def executeSW (s : CPU) : CPU :=
  let address := effectiveAddress s
  if (address + 3) % 4294967296 < MEMORY_SIZE then
    let value : Int := s.registers s.rt
    let m1 := Function.update s.memory address (octetI value 24)
    let m2 := Function.update m1 ((address + 1) % 4294967296) (octetI value 16)
    let m3 := Function.update m2 ((address + 2) % 4294967296) (octetI value 8)
    let m4 := Function.update m3 ((address + 3) % 4294967296) (octetI value 0)
    { s with memory := m4 }
  else
    s

/-- `CPU::executeLW`. The test `address + 3 < MEMORY_SIZE` is evaluated in `uint32_t`. When the
sum wraps (`address` is `0xFFFFFFFD .. 0xFFFFFFFF`) the test lets through a load whose first
index is outside the array: this function then reads the cell of the total map at that index
and returns; that the C++ has no defined outcome there is recorded by `memoryAccessOutside`
and `executeChecked`. -/
def executeLW (s : CPU) : CPU :=
  let address := effectiveAddress s
  if (address + 3) % 4294967296 < MEMORY_SIZE then
    let value : Int := toI32 (((s.memory address <<< 24) |||
        (s.memory ((address + 1) % 4294967296) <<< 16) |||
        (s.memory ((address + 2) % 4294967296) <<< 8) |||
        s.memory ((address + 3) % 4294967296) : Nat) : Int)
    { s with registers := Function.update s.registers s.rt value }
  else
    s

/-- `CPU::execute`: the `switch (opcode)`, then `registers[0] = 0;`. -/
def execute (s : CPU) : CPU :=
  let s1 :=
    if s.opcode = 0x00 then executeRType s
    else if s.opcode = 0x08 then executeADDI s
    else if s.opcode = 0x04 then executeBEQ s
    else if s.opcode = 0x2B then executeSW s
    else if s.opcode = 0x23 then executeLW s
    else { s with running := false }
  { s1 with registers := Function.update s1.registers 0 0 }

/-- The rest of an iteration of the `while` loop of `CPU::run` once `fetch` has succeeded:
`decode(); execute(); clockCycles++;` (the printing in between changes no data member). -/
def finishCycle (s1 : CPU) : CPU :=
  let s2 := execute (decode s1)
  { s2 with clockCycles := (s2.clockCycles + 1) % 18446744073709551616 }

/-- One iteration of the `while` loop of `CPU::run`, entered with the loop condition true:
`fetch(); if (!running) break;` and then the rest of the body. -/
def cycle (s : CPU) : CPU :=
  let s1 := fetch s
  if !s1.running then s1 else finishCycle s1

/-- The `while (running && clockCycles < maxCycles)` loop of `CPU::run`; `bound` is
`maxCycles` as the loop condition sees it (converted to `uint64_t`, the type of
`clockCycles`). The first argument is the number of iterations the loop may still make. -/
def runLoop : Nat → Nat → CPU → CPU
  | 0, _, s => s
  | fuel + 1, bound, s =>
    if s.running && decide (s.clockCycles < bound) then
      let s1 := fetch s
      if !s1.running then s1
      else runLoop fuel bound (finishCycle s1)
    else s

/-- `CPU::run(int maxCycles)`. Every iteration that does not leave the loop increases
`clockCycles` by one, so `maxCycles - clockCycles` iterations are all the loop can make: with
that many the loop condition is false at the end (`run_exit`). -/
def run (s : CPU) (maxCycles : Int) : CPU :=
  runLoop (toU64 maxCycles - s.clockCycles) (toU64 maxCycles) s

/-- The fields are those `decode` produces from some instruction word: 6/5/5/5/5/6 bits and a
16-bit immediate. -/
structure CPU.Decoded (s : CPU) : Prop where
  opcode_lt : s.opcode < 64
  rs_lt : s.rs < 32
  rt_lt : s.rt < 32
  rd_lt : s.rd < 32
  shamt_lt : s.shamt < 32
  funct_lt : s.funct < 64
  immediate_ge : -32768 ≤ s.immediate
  immediate_lt : s.immediate < 32768

/-- Re-encoding of the six decoded fields into a word (the 6/5/5/5/5/6-bit layout). -/
def encode (s : CPU) : Nat :=
  (s.opcode <<< 26) ||| (s.rs <<< 21) ||| (s.rt <<< 16) ||| (s.rd <<< 11) |||
    (s.shamt <<< 6) ||| s.funct

/-- A raw object with every member set to an arbitrary nonzero pattern; used to exercise the
constructor on concrete data. -/
def rawObject : CPU :=
  { PC := 7, IR := 7, registers := fun _ => 7, memory := fun _ => 7, clockCycles := 7,
    running := false, opcode := 7, rs := 7, rt := 7, rd := 7, shamt := 7, funct := 7,
    immediate := 7 }

/-- The state used to exercise C9: a running machine with all registers zero whose decoded
fields are those of the word `0x0000003F` (opcode 0, funct `0x3F`). -/
def unknownFunctState : CPU :=
  decode { CPU.new rawObject with IR := 0x0000003F, registers := fun _ => 0 }

/-- A running machine at `PC = 0` whose memory cells all hold the octet 7; used to exercise
`fetch`. -/
def fetchState : CPU :=
  { rawObject with PC := 0, running := true }

/-- A running machine about to execute the instruction word `word`, with `$t0 = a`, `$t1 = b`
and every other register zero; used to exercise the arithmetic and branch instructions. -/
def arithState (word : Nat) (a b : Int) : CPU :=
  decode { rawObject with
    IR := word
    PC := 8
    running := true
    registers := fun i => if i = 8 then a else if i = 9 then b else 0 }

/-- A running machine about to execute the instruction word `word` over the register file
`regs` and the memory `mem`; used to exercise the load and store instructions. -/
def memState (word : Nat) (regs : Nat → Int) (mem : Nat → Nat) : CPU :=
  decode { rawObject with IR := word, PC := 8, running := true, registers := regs, memory := mem }

/-- The register file with `$t0 = -2` and every other register zero. -/
def regsT0 : Nat → Int := fun i => if i = 8 then -2 else 0

/-- The machine about to execute `SW $t0,16($zero)` with `$t0 = -2` over a zero memory. -/
def storeState : CPU := memState 0xAC080010 regsT0 (fun _ => 0)

/-- The machine about to execute `LW $t1,16($zero)` over the memory `storeState` leaves. -/
def loadState : CPU := memState 0x8C090010 regsT0 (execute storeState).memory

/-- The machine after the constructor and `loadProgram` on a file whose lines are `20080005`
(`ADDI $t0,$zero,5`), `20090003` (`ADDI $t1,$zero,3`) and `01095820` (`ADD $t3,$t0,$t1`). -/
def additionProgram (u : CPU) : CPU :=
  loadWords [0x20080005, 0x20090003, 0x01095820] (CPU.new u)

/-- The machine after the constructor and `loadProgram` on a file whose only line is the
word `w`. -/
def singleWordProgram (u : CPU) (w : Nat) : CPU :=
  loadWords [w] (CPU.new u)

/-- The machine after the constructor and `loadProgram` on a file whose lines are `20080005`
(`ADDI $t0,$zero,5`) and `AC08FFFF` (`SW $t0,-1($zero)`). -/
def storeWrapProgram : CPU :=
  loadWords [0x20080005, 0xAC08FFFF] (CPU.new rawObject)

/-- The machine of `storeWrapProgram` in its second cycle, fetched and decoded, about to
execute `SW $t0,-1($zero)`. -/
def storeWrapState : CPU :=
  decode (fetch (cycle storeWrapProgram))

/-- The machine after the constructor and `loadProgram` on a file whose only line is
`8C08FFFF` (`LW $t0,-1($zero)`). -/
def loadWrapProgram : CPU :=
  loadWords [0x8C08FFFF] (CPU.new rawObject)

/-- The machine of `loadWrapProgram` in its first cycle, fetched and decoded, about to execute
`LW $t0,-1($zero)`. -/
def loadWrapState : CPU :=
  decode (fetch loadWrapProgram)

/-- A halted machine: the addition program with the running flag cleared; used to exercise
the halted case of `run`. -/
def haltedState : CPU :=
  { additionProgram rawObject with running := false }

/-- The machine about to execute `SW $t0,16($zero)` with `$t0 = 0x01020304` over a memory
whose cells all hold 9; used to exercise the byte order and the frame of the word store. -/
def storeOrderState : CPU :=
  memState 0xAC080010 (fun i => if i = 8 then 0x01020304 else 0) (fun _ => 9)

/-- `CPU::getRegisterName`. -/
def getRegisterName (reg : Nat) : String :=
  match reg with
  | 0 => "$zero"
  | 1 => "$at"
  | 2 => "$v0"
  | 3 => "$v1"
  | 4 => "$a0"
  | 5 => "$a1"
  | 6 => "$a2"
  | 7 => "$a3"
  | 8 => "$t0"
  | 9 => "$t1"
  | 10 => "$t2"
  | 11 => "$t3"
  | 12 => "$t4"
  | 13 => "$t5"
  | 14 => "$t6"
  | 15 => "$t7"
  | 16 => "$s0"
  | 17 => "$s1"
  | 18 => "$s2"
  | 19 => "$s3"
  | 20 => "$s4"
  | 21 => "$s5"
  | 22 => "$s6"
  | 23 => "$s7"
  | 24 => "$t8"
  | 25 => "$t9"
  | 26 => "$k0"
  | 27 => "$k1"
  | 28 => "$gp"
  | 29 => "$sp"
  | 30 => "$fp"
  | 31 => "$ra"
  | _ => "$?"

/-- The lines `CPU::executeRType` writes to `cout` (one list entry per `endl`). The stream's
rendering of a number in hexadecimal is the parameter `showHex`. -/
def executeRTypeOutput (showHex : Nat → String) (s : CPU) : List String :=
  if s.funct = 0x20 then
    ["ADD " ++ getRegisterName s.rd ++ ", " ++ getRegisterName s.rs ++ ", " ++
      getRegisterName s.rt]
  else if s.funct = 0x22 then
    ["SUB " ++ getRegisterName s.rd ++ ", " ++ getRegisterName s.rs ++ ", " ++
      getRegisterName s.rt]
  else
    ["Unknown R-type funct: 0x" ++ showHex s.funct]

/-- The lines `CPU::executeADDI` writes to `cout`. The stream's rendering of an `int32_t` is
the parameter `showInt`. -/
def executeADDIOutput (showInt : Int → String) (s : CPU) : List String :=
  let signExtImm : Int := toI32 (toI16 s.immediate)
  ["ADDI " ++ getRegisterName s.rt ++ ", " ++ getRegisterName s.rs ++ ", " ++ showInt signExtImm]

/-- The lines `CPU::executeBEQ` writes to `cout`; the program counter printed on a taken
branch is the new one. -/
def executeBEQOutput (showHex : Nat → String) (s : CPU) : List String :=
  if s.registers s.rs = s.registers s.rt then
    ["BEQ " ++ getRegisterName s.rs ++ ", " ++ getRegisterName s.rt ++
      " -> BRANCH TAKEN to PC = 0x" ++ showHex (executeBEQ s).PC]
  else
    ["BEQ " ++ getRegisterName s.rs ++ ", " ++ getRegisterName s.rt ++ " -> NOT TAKEN"]

/-- The lines `CPU::executeSW` writes to `cout`: the trace is inside the bounds test. -/
def executeSWOutput (showInt : Int → String) (s : CPU) : List String :=
  let signExtImm : Int := toI32 (toI16 s.immediate)
  let address := effectiveAddress s
  if (address + 3) % 4294967296 < MEMORY_SIZE then
    ["SW " ++ getRegisterName s.rt ++ ", " ++ showInt signExtImm ++ "(" ++
      getRegisterName s.rs ++ ")"]
  else
    []

/-- The lines `CPU::executeLW` writes to `cout`: the trace is inside the bounds test. -/
def executeLWOutput (showInt : Int → String) (s : CPU) : List String :=
  let signExtImm : Int := toI32 (toI16 s.immediate)
  let address := effectiveAddress s
  if (address + 3) % 4294967296 < MEMORY_SIZE then
    ["LW " ++ getRegisterName s.rt ++ ", " ++ showInt signExtImm ++ "(" ++
      getRegisterName s.rs ++ ")"]
  else
    []

/-- The lines `CPU::execute` writes to `cout`. -/
def executeOutput (showInt : Int → String) (showHex : Nat → String) (s : CPU) : List String :=
  if s.opcode = 0x00 then executeRTypeOutput showHex s
  else if s.opcode = 0x08 then executeADDIOutput showInt s
  else if s.opcode = 0x04 then executeBEQOutput showHex s
  else if s.opcode = 0x2B then executeSWOutput showInt s
  else if s.opcode = 0x23 then executeLWOutput showInt s
  else ["Unknown opcode: 0x" ++ showHex s.opcode]

/-- The default rendering of an `int32_t` by the stream: decimal with a minus sign. -/
def showDecimal (x : Int) : String :=
  if x < 0 then "-" ++ String.mk (Nat.toDigits 10 x.natAbs) else String.mk (Nat.toDigits 10 x.natAbs)

/-- The rendering of an unsigned number by the stream after `hex`: lower-case hexadecimal
digits. -/
def showHexadecimal (n : Nat) : String :=
  String.mk (Nat.toDigits 16 n)

/-- The machine about to execute `SW $t0,4096($zero)` (word `0xAC081000`) with every register
zero: the effective address is 4096, outside the memory. -/
def storeOutsideState : CPU :=
  memState 0xAC081000 (fun _ => 0) (fun _ => 0)

/-- The machine about to execute `LW $t0,4096($zero)` (word `0x8C081000`) with every register
zero: the effective address is 4096, outside the memory. -/
def loadOutsideState : CPU :=
  memState 0x8C081000 (fun _ => 0) (fun _ => 0)

/-- The register indices `CPU::execute` uses in a `registers[...]` expression, read or
written, for the decoded instruction of `s`, in source order; the last is the `registers[0]`
of `execute` itself. -/
def registerAccesses (s : CPU) : List Nat :=
  (if s.opcode = 0x00 then
    (if s.funct = 0x20 then [s.rd, s.rs, s.rt]
     else if s.funct = 0x22 then [s.rd, s.rs, s.rt]
     else [])
   else if s.opcode = 0x08 then [s.rt, s.rs]
   else if s.opcode = 0x04 then [s.rs, s.rt]
   else if s.opcode = 0x2B then
    (if (effectiveAddress s + 3) % 4294967296 < MEMORY_SIZE then [s.rs, s.rt] else [s.rs])
   else if s.opcode = 0x23 then
    (if (effectiveAddress s + 3) % 4294967296 < MEMORY_SIZE then [s.rs, s.rt] else [s.rs])
   else []) ++ [0]

/-- The test of `CPU::printMemory`, `address + 3 < MEMORY_SIZE` in `uint32_t`: true when the
word is dumped, false when `OUT OF BOUNDS` is printed. -/
def printMemoryInBounds (address : Nat) : Bool :=
  decide ((address + 3) % 4294967296 < MEMORY_SIZE)

/-- The initial machine over the memory contents `m`: what the constructor builds, with the
memory array holding `m`. -/
def initialMachine (u : CPU) (m : Nat → Nat) : CPU :=
  { CPU.new u with memory := m }

/-- The state reached from the initial machine over the memory contents `m` by `k`
iterations of the loop of `run`. -/
def stateAfter (u : CPU) (m : Nat → Nat) (k : Nat) : CPU :=
  Nat.iterate cycle k (initialMachine u m)

/-- The memory contents holding `BEQ $zero,$zero,0x7FFF` (word `0x10007FFF`) at address 0 and
zero elsewhere: one cycle takes the branch to address `4 + 4 * 0x7FFF = 131072`. -/
def farBranchMemory : Nat → Nat :=
  fun i => if i = 0 then 0x10 else if i = 2 then 0x7F else if i = 3 then 0xFF else 0

/-- `std::string::find(pat)` on the text `line`: the position of the first occurrence of
`pat`, or `none` for `npos`. -/
def findText (pat : List Char) : List Char → Option Nat
  | [] => if pat.isEmpty then some 0 else none
  | c :: cs =>
    if pat.isPrefixOf (c :: cs) then some 0
    else (findText pat cs).map (fun pos => pos + 1)

/-- The two statements `pos = line.find(mark); if (pos != npos) line = line.substr(pos + 2);`
of `CPU::loadProgram`, for a two-character `mark`: everything up to and including the first
occurrence of `mark` is dropped, wherever in the line it occurs. -/
def dropThrough (mark : List Char) (line : List Char) : List Char :=
  match findText mark line with
  | some pos => line.drop (pos + 2)
  | none => line

/-- The test `line.empty() || line[0] == '#' || line[0] == ';'` of `CPU::loadProgram`. -/
def isSkipped (line : List Char) : Bool :=
  line.isEmpty || line.head? == some '#' || line.head? == some ';'

/-- The instruction word `CPU::loadProgram` obtains from one line of the file, or `none` when
the line is skipped (empty, comment, or failed extraction). The stream extraction
`ss << hex << line; ss >> instruction;` is library code outside the repository: it is the
parameter `extract`, with `none` standing for `ss.fail()`. -/
def lineWord (extract : List Char → Option Nat) (line : List Char) : Option Nat :=
  if isSkipped line then none
  else extract (dropThrough ['0', 'X'] (dropThrough ['0', 'x'] line))

/-- One iteration of the `while (getline(file, line))` loop of `CPU::loadProgram`. -/
def loadLine (extract : List Char → Option Nat) (st : CPU × Nat) (line : List Char) :
    CPU × Nat :=
  match lineWord extract line with
  | none => st
  | some instruction => loadInstruction st instruction

/-- `CPU::loadProgram` on a file that could be opened and whose lines are `lines`: the effect
on the machine (`address` starts at 0). -/
def loadProgram (extract : List Char → Option Nat) (lines : List String) (s : CPU) : CPU :=
  ((lines.map String.toList).foldl (loadLine extract) (s, 0)).1

/-- The words the code loads from the lines of a file, in order. -/
def codeWords (extract : List Char → Option Nat) (lines : List String) : List Nat :=
  (lines.map String.toList).filterMap (lineWord extract)

/-- Following the words of the claim (not the code): "stripping an optional 0x/0X prefix"
removes the two characters `0x` or `0X` when the line begins with them and leaves any other
line as it is. -/
def specStrip : List Char → List Char
  | '0' :: 'x' :: rest => rest
  | '0' :: 'X' :: rest => rest
  | line => line

/-- Following the words of the claim (not the code): the words `w_0 .. w_{k-1}` are those of
the lines that are non-empty, do not begin with `#` or `;`, and parse as hexadecimal after
stripping an optional `0x`/`0X` prefix. -/
def specWords (extract : List Char → Option Nat) (lines : List String) : List Nat :=
  (lines.map String.toList).filterMap
    (fun line => if isSkipped line then none else extract (specStrip line))

/-- The value of a hexadecimal digit. -/
def hexDigit (c : Char) : Option Nat :=
  if '0' ≤ c ∧ c ≤ '9' then some (c.toNat - '0'.toNat)
  else if 'a' ≤ c ∧ c ≤ 'f' then some (c.toNat - 'a'.toNat + 10)
  else if 'A' ≤ c ∧ c ≤ 'F' then some (c.toNat - 'A'.toNat + 10)
  else none

/-- The value of a text made of hexadecimal digits only, most significant first. -/
def hexValue (cs : List Char) : Option Nat :=
  cs.foldl (fun acc c =>
    match acc, hexDigit c with
    | some a, some d => some (16 * a + d)
    | _, _ => none) (some 0)

/-- Modelled from the spec: the stream extraction of `CPU::loadProgram` is library code, not
under src/. The spec says the text "is parsed as a hexadecimal 32-bit unsigned integer" and
that "a line that fails to parse as hex is skipped": here a text parses when it is a non-empty
sequence of hexadecimal digits whose value fits in 32 bits. -/
def parseHex (text : List Char) : Option Nat :=
  if text.isEmpty then none
  else
    match hexValue text with
    | some v => if v < 4294967296 then some v else none
    | none => none

/-- A source file with interleaved comment lines, an empty line and a malformed line between
the three instructions of the addition program. -/
def commentedSource : List String :=
  ["# addition", "20080005", "", "; second operand", "0x20090003", "zz", "0X01095820"]

/-- Whether `CPU::execute`, on the decoded instruction of `s`, uses a `registers[...]` index
outside the 32-entry array. -/
def registerAccessOutside (s : CPU) : Bool :=
  (registerAccesses s).any (fun i => decide (NUM_REGISTERS ≤ i))

/-- Whether `CPU::execute`, on the decoded instruction of `s`, uses a `memory[...]` index
outside the 4096-byte array: the instruction is SW or LW, the test `address + 3 < MEMORY_SIZE`
(in `uint32_t`) lets the access through, and one of the four indices `address`, `address + 1`,
`address + 2`, `address + 3` (each a `uint32_t`) is not below `MEMORY_SIZE`. -/
def memoryAccessOutside (s : CPU) : Bool :=
  (decide (s.opcode = 0x2B) || decide (s.opcode = 0x23)) &&
  decide ((effectiveAddress s + 3) % 4294967296 < MEMORY_SIZE) &&
  !(decide (effectiveAddress s < MEMORY_SIZE) &&
    decide ((effectiveAddress s + 1) % 4294967296 < MEMORY_SIZE) &&
    decide ((effectiveAddress s + 2) % 4294967296 < MEMORY_SIZE) &&
    decide ((effectiveAddress s + 3) % 4294967296 < MEMORY_SIZE))

/-- `CPU::execute` with the bounds of the two arrays: indexing `registers[]` or `memory[]`
outside the array is undefined behaviour in C++ (in practice the process is killed), so the
call has no resulting state, `none`; otherwise the result is that of `execute`. -/
def executeChecked (s : CPU) : Option CPU :=
  if registerAccessOutside s || memoryAccessOutside s then none else some (execute s)

/-- The loop of `CPU::run` with the bounds of the two arrays: as `runLoop`, except that an
iteration whose `execute` indexes an array outside its bounds ends the run without a resulting
state. The other array accesses of an iteration are inside the arrays: `fetch` reads
`memory[PC .. PC+3]` only when `PC < MEMORY_SIZE - 3`, `printRegisters` uses the indices
`1 .. 31`, and `printMemory` is called with the program counter of a successful fetch. -/
def runLoopChecked : Nat → Nat → CPU → Option CPU
  | 0, _, s => some s
  | fuel + 1, bound, s =>
    if s.running && decide (s.clockCycles < bound) then
      let s1 := fetch s
      if !s1.running then some s1
      else
        match executeChecked (decode s1) with
        | none => none
        | some s2 =>
          runLoopChecked fuel bound
            { s2 with clockCycles := (s2.clockCycles + 1) % 18446744073709551616 }
    else some s

/-- `CPU::run(int maxCycles)` with the bounds of the two arrays: the state `run` returns, or
`none` when the run indexes an array outside its bounds and so has no defined outcome. -/
def runChecked (s : CPU) (maxCycles : Int) : Option CPU :=
  runLoopChecked (toU64 maxCycles - s.clockCycles) (toU64 maxCycles) s

/-! ## Bit operations as arithmetic -/

theorem and_0xFF (x : Nat) : x &&& 0xFF = x % 256 :=
  Nat.and_pow_two_sub_one_eq_mod x 8

theorem and_0x3F (x : Nat) : x &&& 0x3F = x % 64 :=
  Nat.and_pow_two_sub_one_eq_mod x 6

theorem and_0x1F (x : Nat) : x &&& 0x1F = x % 32 :=
  Nat.and_pow_two_sub_one_eq_mod x 5

theorem and_0xFFFF (x : Nat) : x &&& 0xFFFF = x % 65536 :=
  Nat.and_pow_two_sub_one_eq_mod x 16

theorem ldiff_0xFF (m : Nat) : Nat.ldiff 255 m = 255 - m % 256 := by
  have h : m % 2 ^ 8 < 2 ^ 8 := Nat.mod_lt _ (by norm_num)
  have e : 255 - m % 256 = 2 ^ 8 - (m % 2 ^ 8 + 1) := by norm_num; omega
  rw [e]
  apply Nat.eq_of_testBit_eq
  intro i
  rw [Nat.testBit_ldiff, Nat.testBit_two_pow_sub_succ h, Nat.testBit_mod_two_pow,
    show (255 : Nat) = 2 ^ 8 - 1 by norm_num, Nat.testBit_two_pow_sub_one]
  cases decide (i < 8) <;> simp

theorem land_0xFF (x : Int) : Int.land x 0xFF = x % 256 := by
  cases x with
  | ofNat m =>
    show ((m &&& 0xFF : Nat) : Int) = (m : Int) % 256
    rw [and_0xFF]; norm_cast
  | negSucc m =>
    show ((Nat.ldiff 255 m : Nat) : Int) = Int.negSucc m % 256
    rw [ldiff_0xFF, Int.negSucc_eq]
    omega

theorem octetI_eq (value : Int) (sh : Nat) :
    octetI value sh = (value / 2 ^ sh % 256).toNat := by
  unfold octetI
  rw [land_0xFF, Int.shiftRight_eq_div_pow]
  norm_cast

theorem octetI_lt (value : Int) (sh : Nat) : octetI value sh < 256 := by
  rw [octetI_eq]; omega

theorem shl2_eq (x : Int) : x <<< (2 : Int) = x * 4 := by
  have := Int.shiftLeft_eq_mul_pow x 2
  simpa using this

theorem mul_pow_or (k q y : Nat) (h : y < 2 ^ k) : (q * 2 ^ k) ||| y = q * 2 ^ k + y := by
  rw [Nat.mul_comm q, Nat.mul_add_lt_is_or h]

theorem or_bytes (a b c d : Nat) (hb : b < 256) (hc : c < 256) (hd : d < 256) :
    (a <<< 24) ||| (b <<< 16) ||| (c <<< 8) ||| d
      = a * 16777216 + b * 65536 + c * 256 + d := by
  simp only [Nat.shiftLeft_eq]
  have h1 : (a * 2 ^ 24) ||| (b * 2 ^ 16) = a * 2 ^ 24 + b * 2 ^ 16 :=
    mul_pow_or 24 a (b * 2 ^ 16) (by norm_num; omega)
  have h2 : (a * 2 ^ 24 + b * 2 ^ 16) ||| (c * 2 ^ 8) = a * 2 ^ 24 + b * 2 ^ 16 + c * 2 ^ 8 := by
    have := mul_pow_or 16 (a * 2 ^ 8 + b) (c * 2 ^ 8) (by norm_num; omega)
    have e : (a * 2 ^ 8 + b) * 2 ^ 16 = a * 2 ^ 24 + b * 2 ^ 16 := by ring
    rw [e] at this; exact this
  have h3 : (a * 2 ^ 24 + b * 2 ^ 16 + c * 2 ^ 8) ||| d
      = a * 2 ^ 24 + b * 2 ^ 16 + c * 2 ^ 8 + d := by
    have := mul_pow_or 8 (a * 2 ^ 16 + b * 2 ^ 8 + c) d (by norm_num; omega)
    have e : (a * 2 ^ 16 + b * 2 ^ 8 + c) * 2 ^ 8 = a * 2 ^ 24 + b * 2 ^ 16 + c * 2 ^ 8 := by ring
    rw [e] at this; exact this
  rw [h1, h2, h3]; norm_num

/-! ## Conversions -/

theorem toU32_lt (x : Int) : toU32 x < 4294967296 := by
  unfold toU32; omega

theorem toI32_range (x : Int) : -2147483648 ≤ toI32 x ∧ toI32 x < 2147483648 := by
  unfold toI32; omega

theorem toI32_emod (x : Int) : toI32 x % 4294967296 = x % 4294967296 := by
  unfold toI32; omega

theorem toI32_of_range (x : Int) (h1 : -2147483648 ≤ x) (h2 : x < 2147483648) : toI32 x = x := by
  unfold toI32; omega

theorem toI16_of_range (x : Int) (h1 : -32768 ≤ x) (h2 : x < 32768) : toI16 x = x := by
  unfold toI16; omega

theorem toI16_range (x : Int) : -32768 ≤ toI16 x ∧ toI16 x < 32768 := by
  unfold toI16; omega

theorem toU32_toI32 (x : Int) : toU32 (toI32 x) = toU32 x := by
  unfold toU32 toI32; omega

/-! ## `fetch` -/

theorem fetch_halt (s : CPU) (h : 4096 ≤ s.PC + 3) : fetch s = { s with running := false } := by
  unfold fetch MEMORY_SIZE
  rw [if_pos (by omega)]

theorem fetch_ok (s : CPU) (h : s.PC + 3 < 4096) :
    fetch s = { s with
      IR := ((s.memory s.PC <<< 24) ||| (s.memory (s.PC + 1) <<< 16) |||
             (s.memory (s.PC + 2) <<< 8) ||| s.memory (s.PC + 3)) % 4294967296
      PC := s.PC + 4 } := by
  unfold fetch MEMORY_SIZE
  rw [if_neg (by omega)]
  rw [Nat.mod_eq_of_lt (show s.PC + 1 < 4294967296 by omega),
    Nat.mod_eq_of_lt (show s.PC + 2 < 4294967296 by omega),
    Nat.mod_eq_of_lt (show s.PC + 3 < 4294967296 by omega),
    Nat.mod_eq_of_lt (show s.PC + 4 < 4294967296 by omega)]

theorem fetch_registers (s : CPU) : (fetch s).registers = s.registers := by
  unfold fetch; split <;> rfl

theorem fetch_memory (s : CPU) : (fetch s).memory = s.memory := by
  unfold fetch; split <;> rfl

theorem fetch_clockCycles (s : CPU) : (fetch s).clockCycles = s.clockCycles := by
  unfold fetch; split <;> rfl

theorem fetch_running (s : CPU) :
    (fetch s).running = (s.running && decide (s.PC + 3 < 4096)) := by
  unfold fetch MEMORY_SIZE
  split
  · have : ¬ s.PC + 3 < 4096 := by omega
    simp [this]
  · have : s.PC + 3 < 4096 := by omega
    simp [this]

/-! ## `decode` -/

@[simp] theorem decode_PC (s : CPU) : (decode s).PC = s.PC := rfl
@[simp] theorem decode_IR (s : CPU) : (decode s).IR = s.IR := rfl
@[simp] theorem decode_registers (s : CPU) : (decode s).registers = s.registers := rfl
@[simp] theorem decode_memory (s : CPU) : (decode s).memory = s.memory := rfl
@[simp] theorem decode_clockCycles (s : CPU) : (decode s).clockCycles = s.clockCycles := rfl
@[simp] theorem decode_running (s : CPU) : (decode s).running = s.running := rfl

theorem decode_opcode (s : CPU) : (decode s).opcode = s.IR / 67108864 % 64 := by
  show (s.IR >>> 26) &&& 0x3F = _
  rw [and_0x3F, Nat.shiftRight_eq_div_pow]

theorem decode_rs (s : CPU) : (decode s).rs = s.IR / 2097152 % 32 := by
  show (s.IR >>> 21) &&& 0x1F = _
  rw [and_0x1F, Nat.shiftRight_eq_div_pow]

theorem decode_rt (s : CPU) : (decode s).rt = s.IR / 65536 % 32 := by
  show (s.IR >>> 16) &&& 0x1F = _
  rw [and_0x1F, Nat.shiftRight_eq_div_pow]

theorem decode_rd (s : CPU) : (decode s).rd = s.IR / 2048 % 32 := by
  show (s.IR >>> 11) &&& 0x1F = _
  rw [and_0x1F, Nat.shiftRight_eq_div_pow]

theorem decode_shamt (s : CPU) : (decode s).shamt = s.IR / 64 % 32 := by
  show (s.IR >>> 6) &&& 0x1F = _
  rw [and_0x1F, Nat.shiftRight_eq_div_pow]

theorem decode_funct (s : CPU) : (decode s).funct = s.IR % 64 := by
  show s.IR &&& 0x3F = _
  rw [and_0x3F]

theorem decode_immediate (s : CPU) :
    (decode s).immediate = toI16 ((s.IR % 65536 : Nat) : Int) := by
  show toI16 ((s.IR &&& 0xFFFF : Nat) : Int) = _
  rw [and_0xFFFF]

theorem decode_Decoded (s : CPU) : (decode s).Decoded where
  opcode_lt := by rw [decode_opcode]; omega
  rs_lt := by rw [decode_rs]; omega
  rt_lt := by rw [decode_rt]; omega
  rd_lt := by rw [decode_rd]; omega
  shamt_lt := by rw [decode_shamt]; omega
  funct_lt := by rw [decode_funct]; omega
  immediate_ge := by rw [decode_immediate]; exact (toI16_range _).1
  immediate_lt := by rw [decode_immediate]; exact (toI16_range _).2

theorem encode_eq (s : CPU) (h : s.Decoded) :
    encode s = s.opcode * 67108864 + s.rs * 2097152 + s.rt * 65536 + s.rd * 2048 +
      s.shamt * 64 + s.funct := by
  obtain ⟨h1, h2, h3, h4, h5, h6, -, -⟩ := h
  unfold encode
  simp only [Nat.shiftLeft_eq]
  have e1 := mul_pow_or 26 s.opcode (s.rs * 2 ^ 21) (by norm_num; omega)
  have e2 := mul_pow_or 21 (s.opcode * 2 ^ 5 + s.rs) (s.rt * 2 ^ 16) (by norm_num; omega)
  have e3 := mul_pow_or 16 (s.opcode * 2 ^ 10 + s.rs * 2 ^ 5 + s.rt) (s.rd * 2 ^ 11)
    (by norm_num; omega)
  have e4 := mul_pow_or 11 (s.opcode * 2 ^ 15 + s.rs * 2 ^ 10 + s.rt * 2 ^ 5 + s.rd)
    (s.shamt * 2 ^ 6) (by norm_num; omega)
  have e5 := mul_pow_or 6
    (s.opcode * 2 ^ 20 + s.rs * 2 ^ 15 + s.rt * 2 ^ 10 + s.rd * 2 ^ 5 + s.shamt) s.funct
    (by norm_num; omega)
  norm_num at e1 e2 e3 e4 e5 ⊢
  rw [e1]
  rw [show s.opcode * 67108864 + s.rs * 2097152 = (s.opcode * 32 + s.rs) * 2097152 by ring, e2]
  rw [show (s.opcode * 32 + s.rs) * 2097152 + s.rt * 65536
    = (s.opcode * 1024 + s.rs * 32 + s.rt) * 65536 by ring, e3]
  rw [show (s.opcode * 1024 + s.rs * 32 + s.rt) * 65536 + s.rd * 2048
    = (s.opcode * 32768 + s.rs * 1024 + s.rt * 32 + s.rd) * 2048 by ring, e4]
  rw [show (s.opcode * 32768 + s.rs * 1024 + s.rt * 32 + s.rd) * 2048 + s.shamt * 64
    = (s.opcode * 1048576 + s.rs * 32768 + s.rt * 1024 + s.rd * 32 + s.shamt) * 64 by ring, e5]


/-! ## `execute` -/

theorem execute_registers_zero (s : CPU) : (execute s).registers 0 = 0 := by
  simp [execute]

theorem executeRType_unknown (s : CPU) (h1 : s.funct ≠ 0x20) (h2 : s.funct ≠ 0x22) :
    executeRType s = s := by
  unfold executeRType
  rw [if_neg h1, if_neg h2]

theorem fix_zero (r : Nat → Int) (h : r 0 = 0) : Function.update r 0 0 = r := by
  rw [← h]; exact Function.update_eq_self 0 r

theorem execute_ADD (s : CPU) (hop : s.opcode = 0) (hf : s.funct = 0x20) :
    execute s =
      { s with
        registers := Function.update (Function.update s.registers s.rd
          (toI32 (s.registers s.rs + s.registers s.rt))) 0 0 } := by
  unfold execute
  rw [if_pos hop]
  unfold executeRType
  rw [if_pos hf]

theorem execute_SUB (s : CPU) (hop : s.opcode = 0) (hf : s.funct = 0x22) :
    execute s =
      { s with
        registers := Function.update (Function.update s.registers s.rd
          (toI32 (s.registers s.rs - s.registers s.rt))) 0 0 } := by
  unfold execute
  rw [if_pos hop]
  unfold executeRType
  rw [if_neg (by rw [hf]; decide), if_pos hf]

theorem execute_ADDI (s : CPU) (hop : s.opcode = 0x08) :
    execute s =
      { s with
        registers := Function.update (Function.update s.registers s.rt
          (toI32 (s.registers s.rs + toI32 (toI16 s.immediate)))) 0 0 } := by
  unfold execute
  rw [if_neg (by rw [hop]; decide), if_pos hop]
  rfl

theorem execute_BEQ (s : CPU) (hop : s.opcode = 0x04) :
    execute s = { executeBEQ s with registers := Function.update s.registers 0 0 } := by
  unfold execute
  rw [if_neg (by rw [hop]; decide), if_neg (by rw [hop]; decide), if_pos hop]
  unfold executeBEQ
  split <;> rfl

theorem execute_SW (s : CPU) (hop : s.opcode = 0x2B) :
    execute s = { executeSW s with registers := Function.update s.registers 0 0 } := by
  unfold execute
  rw [if_neg (by rw [hop]; decide), if_neg (by rw [hop]; decide), if_neg (by rw [hop]; decide),
    if_pos hop]
  unfold executeSW
  dsimp only
  split <;> rfl

theorem execute_LW (s : CPU) (hop : s.opcode = 0x23) :
    execute s = { executeLW s with
      registers := Function.update (executeLW s).registers 0 0 } := by
  unfold execute
  rw [if_neg (by rw [hop]; decide), if_neg (by rw [hop]; decide), if_neg (by rw [hop]; decide),
    if_neg (by rw [hop]; decide), if_pos hop]

theorem execute_unknown (s : CPU) (h0 : s.opcode ≠ 0x00) (h1 : s.opcode ≠ 0x08)
    (h2 : s.opcode ≠ 0x04) (h3 : s.opcode ≠ 0x2B) (h4 : s.opcode ≠ 0x23) :
    execute s = { s with running := false, registers := Function.update s.registers 0 0 } := by
  unfold execute
  rw [if_neg h0, if_neg h1, if_neg h2, if_neg h3, if_neg h4]

/-! ## Claims -/

/-- C3. Decode/re-encode round trip: for every 32-bit instruction word, reassembling the six
fields `decode` extracts, `(opcode << 26) | (rs << 21) | (rt << 16) | (rd << 11) | (shamt << 6)
| funct`, gives the word back (whatever its opcode, so in particular for the supported ones). -/
theorem decode_encode_roundtrip (s : CPU) (h : s.IR < 4294967296) :
    ((decode s).opcode <<< 26) ||| ((decode s).rs <<< 21) ||| ((decode s).rt <<< 16) |||
      ((decode s).rd <<< 11) ||| ((decode s).shamt <<< 6) ||| (decode s).funct = s.IR := by
  show encode (decode s) = s.IR
  rw [encode_eq _ (decode_Decoded s), decode_opcode, decode_rs, decode_rt, decode_rd,
    decode_shamt, decode_funct]
  omega

/-- Witness for C3 on the word `0x01095820` (`ADD $t3,$t0,$t1`). -/
theorem decode_encode_roundtrip_witness :
    ({ rawObject with IR := 0x01095820 } : CPU).IR < 4294967296 ∧
    ((decode { rawObject with IR := 0x01095820 }).opcode <<< 26) |||
      ((decode { rawObject with IR := 0x01095820 }).rs <<< 21) |||
      ((decode { rawObject with IR := 0x01095820 }).rt <<< 16) |||
      ((decode { rawObject with IR := 0x01095820 }).rd <<< 11) |||
      ((decode { rawObject with IR := 0x01095820 }).shamt <<< 6) |||
      (decode { rawObject with IR := 0x01095820 }).funct
      = ({ rawObject with IR := 0x01095820 } : CPU).IR :=
  ⟨by decide, decode_encode_roundtrip { rawObject with IR := 0x01095820 } (by decide)⟩

/-- C9. Unrecognized R-type funct: in a state whose register 0 is zero, executing an instruction
with opcode 0 and a funct other than `0x20` and `0x22` changes nothing: the running flag, the
program counter, every register and every memory byte keep their values (indeed the whole state
is unchanged), so the machine does not halt. -/
theorem unknown_funct_no_change (s : CPU) (h0 : s.registers 0 = 0) (hop : s.opcode = 0)
    (h1 : s.funct ≠ 0x20) (h2 : s.funct ≠ 0x22) :
    (execute s).running = s.running ∧ (execute s).PC = s.PC ∧
    (∀ i, i < 32 → (execute s).registers i = s.registers i) ∧
    (∀ i, i < 4096 → (execute s).memory i = s.memory i) ∧
    execute s = s := by
  have key : execute s = s := by
    unfold execute
    rw [if_pos hop]
    rw [executeRType_unknown s h1 h2]
    show ({ s with registers := Function.update s.registers 0 0 } : CPU) = s
    rw [fix_zero _ h0]
  rw [key]
  exact ⟨rfl, rfl, fun _ _ => rfl, fun _ _ => rfl, rfl⟩

/-- Witness for C9 on the word `0x0000003F` (opcode 0, funct `0x3F`). -/
theorem unknown_funct_no_change_witness :
    unknownFunctState.registers 0 = 0 ∧ unknownFunctState.opcode = 0 ∧
    unknownFunctState.funct ≠ 0x20 ∧ unknownFunctState.funct ≠ 0x22 ∧
    execute unknownFunctState = unknownFunctState :=
  ⟨rfl, by decide, by decide, by decide,
    (unknown_funct_no_change unknownFunctState rfl (by decide) (by decide) (by decide)).2.2.2.2⟩

/-- C10. Fetch, for a machine whose memory cells are octets: the running flag is cleared with
`PC` and `IR` untouched exactly when `PC + 3 ≥ 4096`; otherwise `IR` becomes the big-endian word
`memory[PC]*2^24 + memory[PC+1]*2^16 + memory[PC+2]*2^8 + memory[PC+3]`, `PC` advances by
exactly 4 and the running flag is unchanged. In both cases registers, memory and the cycle
counter are unchanged, and the only cells read are `PC .. PC+3`: changing any other cell of the
memory does not change what `fetch` computes. -/
theorem fetch_spec (s : CPU) (hmem : ∀ i, s.memory i < 256) :
    (((fetch s).running = false ∧ (fetch s).PC = s.PC ∧ (fetch s).IR = s.IR) ↔
      s.PC + 3 ≥ 4096) ∧
    (s.PC + 3 < 4096 →
      (fetch s).IR = s.memory s.PC * 2 ^ 24 + s.memory (s.PC + 1) * 2 ^ 16 +
        s.memory (s.PC + 2) * 2 ^ 8 + s.memory (s.PC + 3) ∧
      (fetch s).PC = s.PC + 4 ∧ (fetch s).running = s.running) ∧
    ((fetch s).registers = s.registers ∧ (fetch s).memory = s.memory ∧
      (fetch s).clockCycles = s.clockCycles) ∧
    (∀ m : Nat → Nat, (∀ i, s.PC ≤ i → i ≤ s.PC + 3 → m i = s.memory i) →
      fetch { s with memory := m } = { fetch s with memory := m }) := by
  refine ⟨⟨?_, ?_⟩, ?_, ⟨fetch_registers s, fetch_memory s, fetch_clockCycles s⟩, ?_⟩
  · rintro ⟨-, hpc, -⟩
    by_contra hlt
    rw [fetch_ok s (by omega)] at hpc
    simp at hpc
  · intro h
    rw [fetch_halt s h]
    exact ⟨rfl, rfl, rfl⟩
  · intro h
    rw [fetch_ok s h]
    refine ⟨?_, rfl, rfl⟩
    show (s.memory s.PC <<< 24 ||| s.memory (s.PC + 1) <<< 16 ||| s.memory (s.PC + 2) <<< 8 |||
      s.memory (s.PC + 3)) % 4294967296 = _
    rw [or_bytes _ _ _ _ (hmem _) (hmem _) (hmem _)]
    have h0 := hmem s.PC
    have h1 := hmem (s.PC + 1)
    have h2 := hmem (s.PC + 2)
    have h3 := hmem (s.PC + 3)
    omega
  · intro m hm
    by_cases h : s.PC + 3 < 4096
    · rw [fetch_ok s h, fetch_ok { s with memory := m } h]
      dsimp only
      rw [hm s.PC (by omega) (by omega), hm (s.PC + 1) (by omega) (by omega),
        hm (s.PC + 2) (by omega) (by omega), hm (s.PC + 3) (by omega) (by omega)]
    · rw [fetch_halt s (by omega), fetch_halt { s with memory := m } (by show 4096 ≤ s.PC + 3; omega)]

/-- Witness for C10: a successful fetch at `PC = 0` over cells that all hold 7. -/
theorem fetch_spec_witness :
    (∀ i, fetchState.memory i < 256) ∧
    (fetch fetchState).IR = 0x07070707 ∧ (fetch fetchState).PC = 4 ∧
    (fetch fetchState).running = true :=
  ⟨fun _ => show (7 : Nat) < 256 by decide,
    (fetch_spec fetchState (fun _ => show (7 : Nat) < 256 by decide)).2.1 (by decide)⟩

/-- C6. Wraparound arithmetic: with a non-zero destination index, ADD leaves in `registers[rd]`
the sum `registers[rs] + registers[rt]`, SUB the difference `registers[rs] - registers[rt]`, and
ADDI leaves in `registers[rt]` the sum `registers[rs] + immediate` (the immediate being a 16-bit
two's-complement value), each reduced modulo `2^32` into the signed 32-bit range; the running
flag is unchanged (no trap, no halt). In particular `0x7FFFFFFF + 1` via ADDI is
`-2147483648` (`0x80000000`). -/
theorem arithmetic_wraps (s : CPU) :
    (s.opcode = 0 → s.funct = 0x20 → s.rd ≠ 0 →
      (-2147483648 ≤ (execute s).registers s.rd ∧ (execute s).registers s.rd < 2147483648 ∧
        (execute s).registers s.rd % 4294967296
          = (s.registers s.rs + s.registers s.rt) % 4294967296) ∧
      (execute s).running = s.running) ∧
    (s.opcode = 0 → s.funct = 0x22 → s.rd ≠ 0 →
      (-2147483648 ≤ (execute s).registers s.rd ∧ (execute s).registers s.rd < 2147483648 ∧
        (execute s).registers s.rd % 4294967296
          = (s.registers s.rs - s.registers s.rt) % 4294967296) ∧
      (execute s).running = s.running) ∧
    (s.opcode = 0x08 → s.rt ≠ 0 → -32768 ≤ s.immediate → s.immediate < 32768 →
      (-2147483648 ≤ (execute s).registers s.rt ∧ (execute s).registers s.rt < 2147483648 ∧
        (execute s).registers s.rt % 4294967296
          = (s.registers s.rs + s.immediate) % 4294967296) ∧
      (execute s).running = s.running) ∧
    (s.opcode = 0x08 → s.rt ≠ 0 → s.registers s.rs = 0x7FFFFFFF → s.immediate = 1 →
      (execute s).registers s.rt = -2147483648 ∧ (execute s).running = s.running) := by
  refine ⟨?_, ?_, ?_, ?_⟩
  · intro hop hf hrd
    rw [execute_ADD s hop hf]
    dsimp only
    rw [Function.update_noteq hrd, Function.update_same]
    exact ⟨⟨(toI32_range _).1, (toI32_range _).2, toI32_emod _⟩, rfl⟩
  · intro hop hf hrd
    rw [execute_SUB s hop hf]
    dsimp only
    rw [Function.update_noteq hrd, Function.update_same]
    exact ⟨⟨(toI32_range _).1, (toI32_range _).2, toI32_emod _⟩, rfl⟩
  · intro hop hrt h1 h2
    rw [execute_ADDI s hop]
    dsimp only
    rw [Function.update_noteq hrt, Function.update_same, toI16_of_range _ h1 h2,
      toI32_of_range s.immediate (by omega) (by omega)]
    exact ⟨⟨(toI32_range _).1, (toI32_range _).2, toI32_emod _⟩, rfl⟩
  · intro hop hrt hrs himm
    rw [execute_ADDI s hop]
    dsimp only
    rw [Function.update_noteq hrt, Function.update_same, hrs, himm]
    exact ⟨by decide, rfl⟩

/-- Witness for C6: `ADD $t3,$t0,$t1` on `0x7FFFFFFF + 1`, `SUB $t3,$t0,$t1` on
`-2147483648 - 1`, and `ADDI $t1,$t0,1` on `0x7FFFFFFF`. -/
theorem arithmetic_wraps_witness :
    ((arithState 0x01095820 0x7FFFFFFF 1).opcode = 0 ∧
      (arithState 0x01095820 0x7FFFFFFF 1).funct = 0x20 ∧
      (arithState 0x01095820 0x7FFFFFFF 1).rd ≠ 0 ∧
      (execute (arithState 0x01095820 0x7FFFFFFF 1)).registers 11 % 4294967296
        = 2147483648) ∧
    ((arithState 0x01095822 (-2147483648) 1).opcode = 0 ∧
      (arithState 0x01095822 (-2147483648) 1).funct = 0x22 ∧
      (arithState 0x01095822 (-2147483648) 1).rd ≠ 0 ∧
      (execute (arithState 0x01095822 (-2147483648) 1)).registers 11 % 4294967296
        = 2147483647) ∧
    ((arithState 0x21090001 0x7FFFFFFF 0).opcode = 0x08 ∧
      (arithState 0x21090001 0x7FFFFFFF 0).rt ≠ 0 ∧
      -32768 ≤ (arithState 0x21090001 0x7FFFFFFF 0).immediate ∧
      (arithState 0x21090001 0x7FFFFFFF 0).immediate < 32768 ∧
      (execute (arithState 0x21090001 0x7FFFFFFF 0)).registers 9 % 4294967296
        = 2147483648) ∧
    ((arithState 0x21090001 0x7FFFFFFF 0).registers 8 = 0x7FFFFFFF ∧
      (arithState 0x21090001 0x7FFFFFFF 0).immediate = 1 ∧
      (execute (arithState 0x21090001 0x7FFFFFFF 0)).registers 9 = -2147483648 ∧
      (execute (arithState 0x21090001 0x7FFFFFFF 0)).running = true) :=
  ⟨⟨by decide, by decide, by decide,
      ((arithmetic_wraps (arithState 0x01095820 0x7FFFFFFF 1)).1
        (by decide) (by decide) (by decide)).1.2.2⟩,
    ⟨by decide, by decide, by decide,
      ((arithmetic_wraps (arithState 0x01095822 (-2147483648) 1)).2.1
        (by decide) (by decide) (by decide)).1.2.2⟩,
    ⟨by decide, by decide, by decide, by decide,
      ((arithmetic_wraps (arithState 0x21090001 0x7FFFFFFF 0)).2.2.1
        (by decide) (by decide) (by decide) (by decide)).1.2.2⟩,
    ⟨by decide, by decide,
      (arithmetic_wraps (arithState 0x21090001 0x7FFFFFFF 0)).2.2.2
        (by decide) (by decide) (by decide) (by decide)⟩⟩

/-- C5. BEQ branch target: let `P` be the program counter when `execute` runs (the value after
the fetch advance). For a BEQ whose two registers are equal, the program counter after `execute`
is `P + (signExtend16(I) << 2)` modulo `2^32`, where `signExtend16(I)` is the immediate as a
16-bit two's-complement value and `<< 2` is multiplication by 4; when the registers differ the
program counter stays `P`. Sign extension is the identity on an immediate that already is a
16-bit two's-complement value, which is what `decode` stores. -/
theorem beq_target (s : CPU) (hop : s.opcode = 0x04) :
    (s.registers s.rs = s.registers s.rt →
      ((execute s).PC : Int)
        = ((s.PC : Int) + ((toI16 s.immediate) <<< (2 : Int))) % 4294967296 ∧
      ((execute s).PC : Int) = ((s.PC : Int) + toI16 s.immediate * 4) % 4294967296) ∧
    (s.registers s.rs ≠ s.registers s.rt → (execute s).PC = s.PC) ∧
    (-32768 ≤ s.immediate → s.immediate < 32768 → toI16 s.immediate = s.immediate) := by
  refine ⟨?_, ?_, fun h1 h2 => toI16_of_range _ h1 h2⟩
  · intro heq
    rw [execute_BEQ s hop]
    unfold executeBEQ
    rw [if_pos heq]
    dsimp only
    have hr := toI16_range s.immediate
    rw [toI32_of_range (toI16 s.immediate) (by omega) (by omega), shl2_eq, toU32_toI32]
    unfold toU32
    constructor <;> omega
  · intro hne
    rw [execute_BEQ s hop]
    unfold executeBEQ
    rw [if_neg hne]

/-- Witness for C5: `BEQ $t0,$t1,-2` fetched from address 4 (so `P = 8`) branches to address 0
when `$t0 = $t1 = 5` and falls through to 8 when `$t0 = 5`, `$t1 = 6`. -/
theorem beq_target_witness :
    ((arithState 0x1109FFFE 5 5).opcode = 0x04 ∧
      (arithState 0x1109FFFE 5 5).registers (arithState 0x1109FFFE 5 5).rs
        = (arithState 0x1109FFFE 5 5).registers (arithState 0x1109FFFE 5 5).rt ∧
      (arithState 0x1109FFFE 5 5).PC = 8 ∧ (arithState 0x1109FFFE 5 5).immediate = -2 ∧
      ((execute (arithState 0x1109FFFE 5 5)).PC : Int) = 0) ∧
    ((arithState 0x1109FFFE 5 6).opcode = 0x04 ∧
      (arithState 0x1109FFFE 5 6).registers (arithState 0x1109FFFE 5 6).rs
        ≠ (arithState 0x1109FFFE 5 6).registers (arithState 0x1109FFFE 5 6).rt ∧
      (execute (arithState 0x1109FFFE 5 6)).PC = 8) :=
  ⟨⟨by decide, by decide, by decide, by decide,
      ((beq_target (arithState 0x1109FFFE 5 5) (by decide)).1 (by decide)).2⟩,
    ⟨by decide, by decide,
      (beq_target (arithState 0x1109FFFE 5 6) (by decide)).2.1 (by decide)⟩⟩

/-! ## Word store and word load -/

theorem effectiveAddress_lt (s : CPU) : effectiveAddress s < 4294967296 :=
  toU32_lt _

theorem executeSW_ok (s : CPU) (h : effectiveAddress s + 3 < 4096) :
    executeSW s =
      { s with
        memory := Function.update (Function.update (Function.update (Function.update s.memory
          (effectiveAddress s) (octetI (s.registers s.rt) 24))
          (effectiveAddress s + 1) (octetI (s.registers s.rt) 16))
          (effectiveAddress s + 2) (octetI (s.registers s.rt) 8))
          (effectiveAddress s + 3) (octetI (s.registers s.rt) 0) } := by
  unfold executeSW MEMORY_SIZE
  dsimp only
  rw [Nat.mod_eq_of_lt (show effectiveAddress s + 1 < 4294967296 by omega),
    Nat.mod_eq_of_lt (show effectiveAddress s + 2 < 4294967296 by omega),
    Nat.mod_eq_of_lt (show effectiveAddress s + 3 < 4294967296 by omega), if_pos h]

theorem executeLW_ok (s : CPU) (h : effectiveAddress s + 3 < 4096) :
    executeLW s =
      { s with
        registers := Function.update s.registers s.rt
          (toI32 (((s.memory (effectiveAddress s) <<< 24) |||
            (s.memory (effectiveAddress s + 1) <<< 16) |||
            (s.memory (effectiveAddress s + 2) <<< 8) |||
            s.memory (effectiveAddress s + 3) : Nat) : Int)) } := by
  unfold executeLW MEMORY_SIZE
  dsimp only
  rw [Nat.mod_eq_of_lt (show effectiveAddress s + 1 < 4294967296 by omega),
    Nat.mod_eq_of_lt (show effectiveAddress s + 2 < 4294967296 by omega),
    Nat.mod_eq_of_lt (show effectiveAddress s + 3 < 4294967296 by omega), if_pos h]

theorem word_of_octets (v : Int) (h1 : -2147483648 ≤ v) (h2 : v < 2147483648) :
    toI32 (((octetI v 24 <<< 24) ||| (octetI v 16 <<< 16) ||| (octetI v 8 <<< 8) |||
      octetI v 0 : Nat) : Int) = v := by
  rw [or_bytes _ _ _ _ (octetI_lt _ _) (octetI_lt _ _) (octetI_lt _ _)]
  simp only [octetI_eq]
  norm_num
  unfold toI32
  omega

/-- C4. LW/SW round trip: if an SW whose source register holds `V` (a signed 32-bit value)
executes with an effective address `a`, `a + 3 < 4096`, and an LW with a non-zero destination
register then executes over the memory the SW left, with the same effective address, the
destination register of the LW holds exactly `V` afterwards. -/
theorem sw_lw_roundtrip (s t : CPU) (hop : s.opcode = 0x2B)
    (ha : effectiveAddress s + 3 < 4096)
    (hV1 : -2147483648 ≤ s.registers s.rt) (hV2 : s.registers s.rt < 2147483648)
    (hmem : ∀ i, i < 4096 → t.memory i = (execute s).memory i)
    (htop : t.opcode = 0x23) (hrt : t.rt ≠ 0)
    (hta : effectiveAddress t = effectiveAddress s) :
    (execute t).registers t.rt = s.registers s.rt := by
  have hs : (execute s).memory =
      Function.update (Function.update (Function.update (Function.update s.memory
        (effectiveAddress s) (octetI (s.registers s.rt) 24))
        (effectiveAddress s + 1) (octetI (s.registers s.rt) 16))
        (effectiveAddress s + 2) (octetI (s.registers s.rt) 8))
        (effectiveAddress s + 3) (octetI (s.registers s.rt) 0) := by
    rw [execute_SW s hop, executeSW_ok s ha]
  have m0 : t.memory (effectiveAddress s) = octetI (s.registers s.rt) 24 := by
    rw [hmem _ (by omega), hs, Function.update_noteq (by omega), Function.update_noteq (by omega),
      Function.update_noteq (by omega), Function.update_same]
  have m1 : t.memory (effectiveAddress s + 1) = octetI (s.registers s.rt) 16 := by
    rw [hmem _ (by omega), hs, Function.update_noteq (by omega), Function.update_noteq (by omega),
      Function.update_same]
  have m2 : t.memory (effectiveAddress s + 2) = octetI (s.registers s.rt) 8 := by
    rw [hmem _ (by omega), hs, Function.update_noteq (by omega), Function.update_same]
  have m3 : t.memory (effectiveAddress s + 3) = octetI (s.registers s.rt) 0 := by
    rw [hmem _ (by omega), hs, Function.update_same]
  rw [execute_LW t htop, executeLW_ok t (by rw [hta]; exact ha)]
  dsimp only
  rw [Function.update_noteq hrt, Function.update_same, hta, m0, m1, m2, m3]
  exact word_of_octets _ hV1 hV2

/-- Witness for C4: `SW $t0,16($zero)` with `$t0 = -2`, then `LW $t1,16($zero)`. -/
theorem sw_lw_roundtrip_witness :
    storeState.opcode = 0x2B ∧ effectiveAddress storeState + 3 < 4096 ∧
    storeState.registers storeState.rt = -2 ∧
    loadState.opcode = 0x23 ∧ loadState.rt ≠ 0 ∧
    effectiveAddress loadState = effectiveAddress storeState ∧
    (execute loadState).registers 9 = -2 :=
  ⟨by decide, by decide, by decide, by decide, by decide, by decide,
    sw_lw_roundtrip storeState loadState (by decide) (by decide) (by decide) (by decide)
      (fun _ _ => rfl) (by decide) (by decide) (by decide)⟩

/-! ## The machine loop -/

@[simp] theorem finishCycle_registers (s : CPU) :
    (finishCycle s).registers = (execute (decode s)).registers := rfl

@[simp] theorem finishCycle_memory (s : CPU) :
    (finishCycle s).memory = (execute (decode s)).memory := rfl

@[simp] theorem finishCycle_running (s : CPU) :
    (finishCycle s).running = (execute (decode s)).running := rfl

@[simp] theorem finishCycle_PC (s : CPU) :
    (finishCycle s).PC = (execute (decode s)).PC := rfl

@[simp] theorem finishCycle_clockCycles (s : CPU) :
    (finishCycle s).clockCycles
      = ((execute (decode s)).clockCycles + 1) % 18446744073709551616 := rfl

theorem cycle_registers_zero (s : CPU) (h : s.registers 0 = 0) :
    (cycle s).registers 0 = 0 := by
  unfold cycle
  dsimp only
  split
  · rw [fetch_registers]; exact h
  · rw [finishCycle_registers]; exact execute_registers_zero _

theorem iterate_cycle_registers_zero (k : Nat) (s : CPU) (h : s.registers 0 = 0) :
    (Nat.iterate cycle k s).registers 0 = 0 := by
  induction k generalizing s with
  | zero => exact h
  | succ k ih => exact ih (cycle s) (cycle_registers_zero s h)

theorem runLoop_registers_zero (fuel bound : Nat) (s : CPU) (h : s.registers 0 = 0) :
    (runLoop fuel bound s).registers 0 = 0 := by
  induction fuel generalizing s with
  | zero => exact h
  | succ fuel ih =>
    unfold runLoop
    dsimp only
    split
    · split
      · rw [fetch_registers]; exact h
      · exact ih _ (by rw [finishCycle_registers]; exact execute_registers_zero _)
    · exact h

/-- C2. Register 0 is always zero: it is zero in the machine the constructor builds, it is zero
after every `execute`, whatever the prior state and the decoded instruction (so also for ADD,
SUB, ADDI and LW with destination index 0), and hence it is zero after any number of cycles,
and after `run` with any budget, from the initial machine over any memory contents. -/
theorem register_zero_invariant :
    (∀ u : CPU, (CPU.new u).registers 0 = 0) ∧
    (∀ s : CPU, (execute s).registers 0 = 0) ∧
    (∀ (u : CPU) (m : Nat → Nat) (k : Nat),
      (Nat.iterate cycle k { CPU.new u with memory := m }).registers 0 = 0) ∧
    (∀ (u : CPU) (m : Nat → Nat) (maxCycles : Int),
      (run { CPU.new u with memory := m } maxCycles).registers 0 = 0) :=
  ⟨fun _ => rfl, execute_registers_zero,
    fun _ _ k => iterate_cycle_registers_zero k _ rfl,
    fun _ _ _ => runLoop_registers_zero _ _ _ rfl⟩

theorem runLoop_addition (s : CPU) (hPC : s.PC = 0) (hrun : s.running = true)
    (hcc : s.clockCycles = 0) (hr0 : s.registers 0 = 0)
    (h0 : s.memory 0 = 0x20) (h1 : s.memory 1 = 0x08) (h2 : s.memory 2 = 0x00)
    (h3 : s.memory 3 = 0x05) (h4 : s.memory 4 = 0x20) (h5 : s.memory 5 = 0x09)
    (h6 : s.memory 6 = 0x00) (h7 : s.memory 7 = 0x03) (h8 : s.memory 8 = 0x01)
    (h9 : s.memory 9 = 0x09) (h10 : s.memory 10 = 0x58) (h11 : s.memory 11 = 0x20) :
    (runLoop 3 3 s).registers 11 = 8 ∧ (runLoop 3 3 s).registers 8 = 5 ∧
    (runLoop 3 3 s).registers 9 = 3 ∧ (runLoop 3 3 s).running = true ∧
    (runLoop 3 3 s).clockCycles = 3 := by
  simp [runLoop, finishCycle, fetch, decode, execute, executeADDI, executeRType, MEMORY_SIZE,
    hPC, hrun, hcc, hr0, h0, h1, h2, h3, h4, h5, h6, h7, h8, h9, h10, h11,
    and_0xFF, and_0x3F, and_0x1F, and_0xFFFF, Nat.shiftRight_eq_div_pow, toI16, toI32,
    Function.update]

theorem additionProgram_init (u : CPU) :
    (additionProgram u).PC = 0 ∧ (additionProgram u).running = true ∧
    (additionProgram u).clockCycles = 0 ∧ (additionProgram u).registers 0 = 0 := by
  simp [additionProgram, loadWords, loadInstruction, CPU.new, MEMORY_SIZE, NUM_REGISTERS]

theorem additionProgram_memory (u : CPU) (i : Nat) :
    (additionProgram u).memory i =
      if i = 11 then 0x20 else if i = 10 then 0x58 else if i = 9 then 0x09
      else if i = 8 then 0x01 else if i = 7 then 0x03 else if i = 6 then 0x00
      else if i = 5 then 0x09 else if i = 4 then 0x20 else if i = 3 then 0x05
      else if i = 2 then 0x00 else if i = 1 then 0x08 else if i = 0 then 0x20
      else if i < 4096 then 0 else u.memory i := by
  simp only [additionProgram, loadWords, loadInstruction, CPU.new, MEMORY_SIZE, List.foldl,
    and_0xFF, Nat.shiftRight_eq_div_pow]
  norm_num
  simp only [Function.update, eq_rec_constant, dite_eq_ite]

theorem toU64_of_range (n : Int) (h0 : 0 ≤ n) (h1 : n < 18446744073709551616) :
    toU64 n = n.toNat := by
  unfold toU64; omega

/-- C7. End-to-end scenario: the initial machine loaded with `0x20080005`, `0x20090003`,
`0x01095820` holds these words big-endian at addresses 0, 4, 8 and zero in every other cell,
and `run` with `maxCycles = 3` ends with `$t3 = 8`, `$t0 = 5`, `$t1 = 3`, the running flag
true and the cycle counter 3. -/
theorem end_to_end_addition (u : CPU) :
    ((additionProgram u).memory 0 * 2 ^ 24 + (additionProgram u).memory 1 * 2 ^ 16 +
        (additionProgram u).memory 2 * 2 ^ 8 + (additionProgram u).memory 3 = 0x20080005 ∧
      (additionProgram u).memory 4 * 2 ^ 24 + (additionProgram u).memory 5 * 2 ^ 16 +
        (additionProgram u).memory 6 * 2 ^ 8 + (additionProgram u).memory 7 = 0x20090003 ∧
      (additionProgram u).memory 8 * 2 ^ 24 + (additionProgram u).memory 9 * 2 ^ 16 +
        (additionProgram u).memory 10 * 2 ^ 8 + (additionProgram u).memory 11 = 0x01095820 ∧
      ∀ i, 12 ≤ i → i < 4096 → (additionProgram u).memory i = 0) ∧
    (run (additionProgram u) 3).registers 11 = 8 ∧
    (run (additionProgram u) 3).registers 8 = 5 ∧
    (run (additionProgram u) 3).registers 9 = 3 ∧
    (run (additionProgram u) 3).running = true ∧
    (run (additionProgram u) 3).clockCycles = 3 := by
  obtain ⟨hPC, hrun, hcc, hr0⟩ := additionProgram_init u
  have hm := additionProgram_memory u
  have h0 : (additionProgram u).memory 0 = 0x20 := by rw [hm]; rfl
  have h1 : (additionProgram u).memory 1 = 0x08 := by rw [hm]; rfl
  have h2 : (additionProgram u).memory 2 = 0x00 := by rw [hm]; rfl
  have h3 : (additionProgram u).memory 3 = 0x05 := by rw [hm]; rfl
  have h4 : (additionProgram u).memory 4 = 0x20 := by rw [hm]; rfl
  have h5 : (additionProgram u).memory 5 = 0x09 := by rw [hm]; rfl
  have h6 : (additionProgram u).memory 6 = 0x00 := by rw [hm]; rfl
  have h7 : (additionProgram u).memory 7 = 0x03 := by rw [hm]; rfl
  have h8 : (additionProgram u).memory 8 = 0x01 := by rw [hm]; rfl
  have h9 : (additionProgram u).memory 9 = 0x09 := by rw [hm]; rfl
  have h10 : (additionProgram u).memory 10 = 0x58 := by rw [hm]; rfl
  have h11 : (additionProgram u).memory 11 = 0x20 := by rw [hm]; rfl
  refine ⟨⟨?_, ?_, ?_, ?_⟩, ?_⟩
  · rw [h0, h1, h2, h3]; rfl
  · rw [h4, h5, h6, h7]; rfl
  · rw [h8, h9, h10, h11]; rfl
  · intro i hi1 hi2
    rw [hm]
    repeat (rw [if_neg (by omega)])
    rw [if_pos hi2]
  · have e : run (additionProgram u) 3 = runLoop 3 3 (additionProgram u) := by
      unfold run
      rw [hcc, toU64_of_range 3 (by decide) (by decide)]
      rfl
    rw [e]
    exact runLoop_addition _ hPC hrun hcc hr0 h0 h1 h2 h3 h4 h5 h6 h7 h8 h9 h10 h11

/-! ## `execute` leaves the cycle counter alone, and a halted machine stays put -/

theorem execute_clockCycles (s : CPU) : (execute s).clockCycles = s.clockCycles := by
  unfold execute executeRType executeADDI executeBEQ executeSW executeLW
  dsimp only
  split_ifs <;> rfl

theorem runLoop_halted (fuel bound : Nat) (s : CPU) (h : s.running = false) :
    runLoop fuel bound s = s := by
  cases fuel with
  | zero => rfl
  | succ fuel =>
    unfold runLoop
    rw [h]
    rfl

/-- The loop of `run` is given enough iterations: when `runLoop` returns, the loop condition
`running && clockCycles < bound` is false, as it is when the C++ loop is left. -/
theorem runLoop_exit (fuel bound : Nat) (s : CPU) (hb : bound < 18446744073709551616)
    (hf : bound - s.clockCycles ≤ fuel) :
    ((runLoop fuel bound s).running && decide ((runLoop fuel bound s).clockCycles < bound))
      = false := by
  induction fuel generalizing s with
  | zero =>
    have : ¬ s.clockCycles < bound := by omega
    simp [runLoop, this]
  | succ fuel ih =>
    unfold runLoop
    dsimp only
    split
    · rename_i hc
      split
      · rename_i hr
        simp only [Bool.not_eq_true', ] at hr
        simp [hr]
      · apply ih
        simp only [Bool.and_eq_true, decide_eq_true_eq] at hc
        rw [finishCycle_clockCycles, execute_clockCycles, decode_clockCycles,
          fetch_clockCycles]
        omega
    · rename_i hc
      simpa using hc

theorem run_exit (s : CPU) (maxCycles : Int) :
    ((run s maxCycles).running && decide ((run s maxCycles).clockCycles < toU64 maxCycles))
      = false :=
  runLoop_exit _ _ s (by unfold toU64; omega) (le_refl _)

/-! ## A one-word program -/

theorem singleWordProgram_init (u : CPU) (w : Nat) :
    (singleWordProgram u w).PC = 0 ∧ (singleWordProgram u w).running = true ∧
    (singleWordProgram u w).clockCycles = 0 ∧
    ∀ i, i < 32 → (singleWordProgram u w).registers i = 0 := by
  refine ⟨rfl, rfl, rfl, ?_⟩
  intro i hi
  show (if i < 32 then (0 : Int) else u.registers i) = 0
  rw [if_pos hi]

theorem singleWordProgram_memory (u : CPU) (w i : Nat) :
    (singleWordProgram u w).memory i =
      if i = 3 then w % 256 else if i = 2 then w / 256 % 256
      else if i = 1 then w / 65536 % 256 else if i = 0 then w / 16777216 % 256
      else if i < 4096 then 0 else u.memory i := by
  simp only [singleWordProgram, loadWords, loadInstruction, CPU.new, MEMORY_SIZE, List.foldl,
    and_0xFF, Nat.shiftRight_eq_div_pow]
  norm_num
  simp only [Function.update, eq_rec_constant, dite_eq_ite]

theorem runLoop_succ_halting (fuel bound : Nat) (s : CPU) (hc : s.running = true)
    (hlt : s.clockCycles < bound) (hf : (fetch s).running = true)
    (hh : (finishCycle (fetch s)).running = false) :
    runLoop (fuel + 1) bound s = finishCycle (fetch s) := by
  unfold runLoop
  simp only [hc, hlt, hf, decide_True, Bool.and_self, if_true, Bool.not_true]
  exact runLoop_halted _ _ _ hh

/-- C8. Unrecognized top-level opcode: for every 32-bit word `w` whose top 6 bits are none of
`0x00`, `0x08`, `0x04`, `0x2B`, `0x23`, the initial machine loaded with `w` alone holds `w`
big-endian at address 0 and zero in every other cell, and `run` under any budget of at least
one cycle stops with the running flag false and the cycle counter exactly 1, every register
and every memory byte being what it was before the run. -/
theorem unknown_opcode_halts (u : CPU) (w : Nat) (n : Int) (hw : w < 4294967296)
    (h0 : w / 2 ^ 26 ≠ 0x00) (h1 : w / 2 ^ 26 ≠ 0x08) (h2 : w / 2 ^ 26 ≠ 0x04)
    (h3 : w / 2 ^ 26 ≠ 0x2B) (h4 : w / 2 ^ 26 ≠ 0x23)
    (hn1 : 1 ≤ n) (hn2 : n < 2147483648) :
    ((singleWordProgram u w).memory 0 * 2 ^ 24 + (singleWordProgram u w).memory 1 * 2 ^ 16 +
        (singleWordProgram u w).memory 2 * 2 ^ 8 + (singleWordProgram u w).memory 3 = w ∧
      ∀ i, 4 ≤ i → i < 4096 → (singleWordProgram u w).memory i = 0) ∧
    (run (singleWordProgram u w) n).running = false ∧
    (run (singleWordProgram u w) n).clockCycles = 1 ∧
    (∀ i, i < 32 →
      (run (singleWordProgram u w) n).registers i = (singleWordProgram u w).registers i) ∧
    (∀ i, i < 4096 →
      (run (singleWordProgram u w) n).memory i = (singleWordProgram u w).memory i) := by
  obtain ⟨hPC, hrun, hcc, hregs⟩ := singleWordProgram_init u w
  have hm := singleWordProgram_memory u w
  have m0 : (singleWordProgram u w).memory 0 = w / 16777216 % 256 := by rw [hm]; rfl
  have m1 : (singleWordProgram u w).memory 1 = w / 65536 % 256 := by rw [hm]; rfl
  have m2 : (singleWordProgram u w).memory 2 = w / 256 % 256 := by rw [hm]; rfl
  have m3 : (singleWordProgram u w).memory 3 = w % 256 := by rw [hm]; rfl
  norm_num at h0 h1 h2 h3 h4
  -- the fetch of the first cycle
  have hfetch := fetch_ok (singleWordProgram u w) (by rw [hPC]; decide)
  have hIR : (fetch (singleWordProgram u w)).IR = w := by
    rw [hfetch]
    dsimp only
    rw [hPC, m0, m1, m2, m3,
      or_bytes _ _ _ _ (Nat.mod_lt _ (by decide)) (Nat.mod_lt _ (by decide))
        (Nat.mod_lt _ (by decide))]
    omega
  have hfrun : (fetch (singleWordProgram u w)).running = true := by
    rw [hfetch]; exact hrun
  have hop : (decode (fetch (singleWordProgram u w))).opcode = w / 67108864 := by
    rw [decode_opcode, hIR]; omega
  have hex := execute_unknown (decode (fetch (singleWordProgram u w)))
    (by rw [hop]; exact h0) (by rw [hop]; exact h1) (by rw [hop]; exact h2)
    (by rw [hop]; exact h3) (by rw [hop]; exact h4)
  have hhalt : (finishCycle (fetch (singleWordProgram u w))).running = false := by
    rw [finishCycle_running, hex]
  -- the loop makes exactly this one iteration
  have hb : toU64 n = n.toNat := toU64_of_range n (by omega) (by omega)
  obtain ⟨k, hk⟩ : ∃ k, toU64 n - (singleWordProgram u w).clockCycles = k + 1 :=
    ⟨n.toNat - 1, by rw [hb, hcc]; omega⟩
  have e : run (singleWordProgram u w) n = finishCycle (fetch (singleWordProgram u w)) := by
    unfold run
    rw [hk]
    exact runLoop_succ_halting _ _ _ hrun (by rw [hcc, hb]; omega) hfrun hhalt
  refine ⟨⟨?_, ?_⟩, ?_, ?_, ?_, ?_⟩
  · rw [m0, m1, m2, m3]; omega
  · intro i hi1 hi2
    rw [hm]
    repeat (rw [if_neg (by omega)])
    rw [if_pos hi2]
  · rw [e]; exact hhalt
  · rw [e, finishCycle_clockCycles, execute_clockCycles, decode_clockCycles, fetch_clockCycles,
      hcc]
  · intro i hi
    rw [e, finishCycle_registers, hex]
    dsimp only
    rw [decode_registers, fetch_registers, fix_zero _ (hregs 0 (by decide))]
  · intro i _
    rw [e, finishCycle_memory, hex]
    dsimp only
    rw [decode_memory, fetch_memory]

/-- Witness for C8: the word `0xFC000000` (top 6 bits `0x3F`) under the default budget of
1000 cycles. -/
theorem unknown_opcode_halts_witness :
    (0xFC000000 : Nat) < 4294967296 ∧
    ((0xFC000000 : Nat) / 2 ^ 26 ≠ 0x00 ∧ (0xFC000000 : Nat) / 2 ^ 26 ≠ 0x08 ∧
      (0xFC000000 : Nat) / 2 ^ 26 ≠ 0x04 ∧ (0xFC000000 : Nat) / 2 ^ 26 ≠ 0x2B ∧
      (0xFC000000 : Nat) / 2 ^ 26 ≠ 0x23) ∧
    (1 : Int) ≤ 1000 ∧ (1000 : Int) < 2147483648 ∧
    (run (singleWordProgram rawObject 0xFC000000) 1000).running = false ∧
    (run (singleWordProgram rawObject 0xFC000000) 1000).clockCycles = 1 :=
  ⟨by decide, ⟨by decide, by decide, by decide, by decide, by decide⟩, by decide, by decide,
    (unknown_opcode_halts rawObject 0xFC000000 1000 (by decide) (by decide) (by decide)
      (by decide) (by decide) (by decide) (by decide) (by decide)).2.1,
    (unknown_opcode_halts rawObject 0xFC000000 1000 (by decide) (by decide) (by decide)
      (by decide) (by decide) (by decide) (by decide) (by decide)).2.2.1⟩

/-- Where the guard of `executeSW` does its job: an effective address whose span leaves the
memory without wrapping around `2^32` is rejected and the state is unchanged. -/
theorem executeSW_rejected (s : CPU) (h1 : 4096 ≤ effectiveAddress s + 3)
    (h2 : effectiveAddress s + 3 < 4294967296) : executeSW s = s := by
  unfold executeSW MEMORY_SIZE
  dsimp only
  rw [Nat.mod_eq_of_lt h2, if_neg (by omega)]

/-- Where the guard of `executeLW` does its job: an effective address whose span leaves the
memory without wrapping around `2^32` is rejected and the state is unchanged. -/
theorem executeLW_rejected (s : CPU) (h1 : 4096 ≤ effectiveAddress s + 3)
    (h2 : effectiveAddress s + 3 < 4294967296) : executeLW s = s := by
  unfold executeLW MEMORY_SIZE
  dsimp only
  rw [Nat.mod_eq_of_lt h2, if_neg (by omega)]

/-- C1, at a failing input. With effective address `0xFFFFFFFF` (register 0 plus the immediate
`-1`) the span `a .. a+3` is not inside the memory, `a + 3 ≥ 4096`, but the guard
`address + 3 < MEMORY_SIZE` is computed in `uint32_t`, where `a + 3` is 2, so the access is
made: `SW $t0,-1($zero)` overwrites the memory bytes 0, 1 and 2 (here byte 0 goes from `0x20`
to 0 and byte 2 from 0 to 5), and `LW $t0,-1($zero)` overwrites `$t0` with a word whose low
three octets are the memory bytes 0, 1, 2. The same happens in whole runs of the two
programs. -/
theorem out_of_bounds_access_wraps :
    (storeWrapState.opcode = 0x2B ∧ effectiveAddress storeWrapState = 4294967295 ∧
      effectiveAddress storeWrapState + 3 ≥ 4096 ∧
      storeWrapState.memory 0 = 0x20 ∧ (execute storeWrapState).memory 0 = 0 ∧
      storeWrapState.memory 2 = 0 ∧ (execute storeWrapState).memory 2 = 5 ∧
      storeWrapProgram.memory 2 = 0 ∧ (run storeWrapProgram 2).memory 2 = 5) ∧
    (loadWrapState.opcode = 0x23 ∧ loadWrapState.rt = 8 ∧
      effectiveAddress loadWrapState = 4294967295 ∧
      effectiveAddress loadWrapState + 3 ≥ 4096 ∧
      loadWrapState.registers 8 = 0 ∧
      (execute loadWrapState).registers 8 % 16777216 = 0x8C08FF ∧
      loadWrapProgram.registers 8 = 0 ∧
      (run loadWrapProgram 1).registers 8 % 16777216 = 0x8C08FF) := by
  decide

/-! ## The loop of `run`, cycle by cycle -/

theorem runLoop_succ (fuel bound : Nat) (s : CPU) :
    runLoop (fuel + 1) bound s =
      if s.running && decide (s.clockCycles < bound) then
        if !(fetch s).running then fetch s else runLoop fuel bound (finishCycle (fetch s))
      else s := rfl

theorem cycle_of_fetch_halt (s : CPU) (h : (fetch s).running = false) : cycle s = fetch s := by
  unfold cycle
  simp [h]

theorem cycle_of_fetch_ok (s : CPU) (h : (fetch s).running = true) :
    cycle s = finishCycle (fetch s) := by
  unfold cycle
  simp [h]

theorem cycle_clockCycles_halt (s : CPU) (h : (fetch s).running = false) :
    (cycle s).clockCycles = s.clockCycles := by
  rw [cycle_of_fetch_halt s h, fetch_clockCycles]

theorem cycle_clockCycles_ok (s : CPU) (h : (fetch s).running = true)
    (hc : s.clockCycles + 1 < 18446744073709551616) :
    (cycle s).clockCycles = s.clockCycles + 1 := by
  rw [cycle_of_fetch_ok s h, finishCycle_clockCycles, execute_clockCycles, decode_clockCycles,
    fetch_clockCycles, Nat.mod_eq_of_lt hc]

theorem runLoop_clockCycles (fuel bound : Nat) (s : CPU) (hb : bound < 18446744073709551616) :
    s.clockCycles ≤ (runLoop fuel bound s).clockCycles ∧
    (s.clockCycles ≤ bound → (runLoop fuel bound s).clockCycles ≤ bound) := by
  induction fuel generalizing s with
  | zero => exact ⟨le_refl _, fun h => h⟩
  | succ fuel ih =>
    rw [runLoop_succ]
    split
    · rename_i hc
      simp only [Bool.and_eq_true, decide_eq_true_eq] at hc
      split
      · rw [fetch_clockCycles]; exact ⟨le_refl _, fun h => h⟩
      · rename_i hr
        have hf : (fetch s).running = true := by simpa using hr
        have e : (finishCycle (fetch s)).clockCycles = s.clockCycles + 1 := by
          rw [← cycle_of_fetch_ok s hf]
          exact cycle_clockCycles_ok s hf (by omega)
        obtain ⟨i1, i2⟩ := ih (finishCycle (fetch s))
        rw [e] at i1 i2
        exact ⟨by omega, fun _ => i2 (by omega)⟩
    · exact ⟨le_refl _, fun h => h⟩

theorem runLoop_iterate (fuel bound : Nat) (s : CPU) :
    ∃ k, runLoop fuel bound s = Nat.iterate cycle k s ∧
      ∀ j, j < k → (Nat.iterate cycle j s).running = true ∧
        (Nat.iterate cycle j s).clockCycles < bound := by
  induction fuel generalizing s with
  | zero => exact ⟨0, rfl, fun j hj => absurd hj (Nat.not_lt_zero j)⟩
  | succ fuel ih =>
    rw [runLoop_succ]
    split
    · rename_i hc
      simp only [Bool.and_eq_true, decide_eq_true_eq] at hc
      split
      · rename_i hr
        have hf : (fetch s).running = false := by simpa using hr
        refine ⟨1, ?_, ?_⟩
        · rw [Function.iterate_one, cycle_of_fetch_halt s hf]
        · intro j hj
          have : j = 0 := by omega
          subst this
          exact hc
      · rename_i hr
        have hf : (fetch s).running = true := by simpa using hr
        obtain ⟨k, hk, hj⟩ := ih (finishCycle (fetch s))
        rw [← cycle_of_fetch_ok s hf] at hk hj ⊢
        refine ⟨k + 1, ?_, ?_⟩
        · rw [Function.iterate_succ_apply]; exact hk
        · intro j hlt
          cases j with
          | zero => exact hc
          | succ j =>
            rw [Function.iterate_succ_apply]
            exact hj j (by omega)
    · exact ⟨0, rfl, fun j hj => absurd hj (Nat.not_lt_zero j)⟩

/-- The budget arithmetic of the loop of `run`, in the model where every array access lands in
a cell (`run`, which agrees with the program on every run that stays inside the arrays, see
`runChecked_eq_some`), for a budget `n` that is a non-negative `int`: the returned state has
the loop condition `running && clockCycles < n` false; the cycle counter does not decrease,
stays within `n` if it started within `n`, and has reached `n` if the machine is still
running. The returned state is the result of some number `k` of loop iterations, each entered
with the loop condition true, and an iteration entered that way adds exactly 1 to the counter
when its fetch succeeds and nothing when its fetch fails. -/
theorem run_budget_flat (s : CPU) (n : Int) (hn0 : 0 ≤ n) (hn1 : n < 2147483648) :
    ((run s n).running && decide ((run s n).clockCycles < n.toNat)) = false ∧
    s.clockCycles ≤ (run s n).clockCycles ∧
    ((s.clockCycles : Int) ≤ n → ((run s n).clockCycles : Int) ≤ n) ∧
    ((run s n).running = true → n ≤ ((run s n).clockCycles : Int)) ∧
    (∃ k, run s n = Nat.iterate cycle k s ∧
      ∀ j, j < k → (Nat.iterate cycle j s).running = true ∧
        ((Nat.iterate cycle j s).clockCycles : Int) < n) ∧
    (∀ t : CPU, t.running = true → (t.clockCycles : Int) < n →
      ((fetch t).running = true → (cycle t).clockCycles = t.clockCycles + 1) ∧
      ((fetch t).running = false → (cycle t).clockCycles = t.clockCycles)) := by
  have hb : toU64 n = n.toNat := toU64_of_range n hn0 (by omega)
  have hex := run_exit s n
  rw [hb] at hex
  have hcl := runLoop_clockCycles (toU64 n - s.clockCycles) (toU64 n) s (by rw [hb]; omega)
  refine ⟨hex, hcl.1, ?_, ?_, ?_, ?_⟩
  · intro h
    have := hcl.2 (by rw [hb]; omega)
    rw [hb] at this
    unfold run
    omega
  · intro hr
    rw [hr] at hex
    simp only [Bool.true_and, decide_eq_false_iff_not] at hex
    omega
  · obtain ⟨k, hk, hj⟩ := runLoop_iterate (toU64 n - s.clockCycles) (toU64 n) s
    refine ⟨k, hk, fun j hlt => ⟨(hj j hlt).1, ?_⟩⟩
    have := (hj j hlt).2
    rw [hb] at this
    omega
  · intro t _ hlt
    exact ⟨fun hf => cycle_clockCycles_ok t hf (by omega), cycle_clockCycles_halt t⟩

/-! ## The running flag is never set again -/

theorem fetch_running_false (s : CPU) (h : s.running = false) : (fetch s).running = false := by
  rw [fetch_running, h]; rfl

theorem execute_running_false (s : CPU) (h : s.running = false) :
    (execute s).running = false := by
  unfold execute executeRType executeADDI executeBEQ executeSW executeLW
  dsimp only
  split_ifs <;> first | exact h | rfl

/-- C20. Halt is permanent: `fetch`, `decode` and `execute` each leave a false running flag
false, and on a state whose running flag is false `run`, whatever its budget, returns the state
itself: the program counter, every register, every memory byte, the cycle counter and the
running flag are unchanged. -/
theorem halt_is_permanent (s : CPU) (h : s.running = false) :
    (fetch s).running = false ∧ (decode s).running = false ∧ (execute s).running = false ∧
    ∀ n : Int,
      (run s n).PC = s.PC ∧ (∀ i, i < 32 → (run s n).registers i = s.registers i) ∧
      (∀ i, i < 4096 → (run s n).memory i = s.memory i) ∧
      (run s n).clockCycles = s.clockCycles ∧ (run s n).running = false ∧ run s n = s := by
  refine ⟨fetch_running_false s h, h, execute_running_false s h, fun n => ?_⟩
  have e : run s n = s := runLoop_halted _ _ s h
  rw [e]
  exact ⟨rfl, fun _ _ => rfl, fun _ _ => rfl, rfl, h, rfl⟩

/-- Witness for C20: the loaded addition program with the running flag cleared, under the
default budget. -/
theorem halt_is_permanent_witness :
    haltedState.running = false ∧ (fetch haltedState).running = false ∧
    (execute haltedState).running = false ∧ run haltedState 1000 = haltedState :=
  ⟨rfl, (halt_is_permanent haltedState rfl).1, (halt_is_permanent haltedState rfl).2.2.1,
    ((halt_is_permanent haltedState rfl).2.2.2 1000).2.2.2.2.2⟩

/-! ## The decoded fields and the immediate operand -/

theorem signExtImm_decode (s : CPU) :
    toI32 (toI16 (decode s).immediate) = (decode s).immediate := by
  have h := (decode_Decoded s)
  rw [toI16_of_range _ h.immediate_ge h.immediate_lt,
    toI32_of_range _ (by have := h.immediate_ge; omega) (by have := h.immediate_lt; omega)]

/-- C13. Decoder field extraction: for every instruction word `w` (the value of `IR`), `decode`
yields opcode = bits [31:26], rs = bits [25:21], rt = bits [20:16], rd = bits [15:11],
shamt = bits [10:6], funct = bits [5:0], and an immediate that lies in `[-32768, 32767]`, is
congruent to `w` modulo `2^16` and is the only such integer. That value is the sign-extended
operand of ADDI, BEQ, LW and SW: the `signExtImm` they compute is the immediate itself, ADDI
adds it to `registers[rs]`, LW and SW form their address from it, and a taken BEQ adds four
times it to the program counter. -/
theorem decoder_fields (s : CPU) :
    ((decode s).opcode = s.IR / 2 ^ 26 % 2 ^ 6 ∧ (decode s).rs = s.IR / 2 ^ 21 % 2 ^ 5 ∧
      (decode s).rt = s.IR / 2 ^ 16 % 2 ^ 5 ∧ (decode s).rd = s.IR / 2 ^ 11 % 2 ^ 5 ∧
      (decode s).shamt = s.IR / 2 ^ 6 % 2 ^ 5 ∧ (decode s).funct = s.IR % 2 ^ 6) ∧
    (-32768 ≤ (decode s).immediate ∧ (decode s).immediate < 32768 ∧
      (decode s).immediate % 65536 = (s.IR : Int) % 65536) ∧
    (∀ x : Int, -32768 ≤ x → x < 32768 → x % 65536 = (s.IR : Int) % 65536 →
      x = (decode s).immediate) ∧
    toI32 (toI16 (decode s).immediate) = (decode s).immediate ∧
    (executeADDI (decode s)).registers (decode s).rt
      = toI32 (s.registers (decode s).rs + (decode s).immediate) ∧
    effectiveAddress (decode s) = toU32 (s.registers (decode s).rs + (decode s).immediate) ∧
    (s.registers (decode s).rs = s.registers (decode s).rt →
      (executeBEQ (decode s)).PC = toU32 ((s.PC : Int) + (decode s).immediate * 4)) := by
  have hd := decode_Decoded s
  have himm : (decode s).immediate % 65536 = (s.IR : Int) % 65536 := by
    rw [decode_immediate]
    unfold toI16
    omega
  refine ⟨⟨?_, ?_, ?_, ?_, ?_, ?_⟩, ⟨hd.immediate_ge, hd.immediate_lt, himm⟩, ?_,
    signExtImm_decode s, ?_, ?_, ?_⟩
  · rw [decode_opcode]; norm_num
  · rw [decode_rs]; norm_num
  · rw [decode_rt]; norm_num
  · rw [decode_rd]; norm_num
  · rw [decode_shamt]; norm_num
  · rw [decode_funct]; norm_num
  · intro x h1 h2 h3
    have := hd.immediate_ge
    have := hd.immediate_lt
    omega
  · unfold executeADDI
    dsimp only
    rw [Function.update_same, signExtImm_decode, decode_registers]
  · unfold effectiveAddress
    dsimp only
    rw [signExtImm_decode, toU32_toI32, decode_registers]
  · intro heq
    unfold executeBEQ
    rw [decode_registers, if_pos heq]
    dsimp only
    rw [signExtImm_decode, shl2_eq, decode_PC]
    unfold toU32 toI32
    omega

/-- Witness for C13 on the word `0x1109FFFE` (`BEQ $t0,$t1,-2`) over equal registers, fetched
from address 4: the immediate is `-2`, the only 16-bit two's-complement value congruent to the
word, and the branch lands on address `8 + 4 * (-2) = 0`. -/
theorem decoder_fields_witness :
    ((-32768 : Int) ≤ -2 ∧ (-2 : Int) < 32768 ∧
      (-2 : Int) % 65536 = ((0x1109FFFE : Nat) : Int) % 65536 ∧
      (-2 : Int) = (decode { rawObject with IR := 0x1109FFFE, PC := 8 }).immediate) ∧
    (rawObject.registers (decode { rawObject with IR := 0x1109FFFE, PC := 8 }).rs
        = rawObject.registers (decode { rawObject with IR := 0x1109FFFE, PC := 8 }).rt ∧
      (executeBEQ (decode { rawObject with IR := 0x1109FFFE, PC := 8 })).PC = 0) :=
  ⟨⟨by decide, by decide, by decide,
      (decoder_fields { rawObject with IR := 0x1109FFFE, PC := 8 }).2.2.1 (-2)
        (by decide) (by decide) (by decide)⟩,
    ⟨rfl, (decoder_fields { rawObject with IR := 0x1109FFFE, PC := 8 }).2.2.2.2.2.2 rfl⟩⟩

/-! ## The octets of a stored word -/

theorem octetI_unsigned (v : Int) :
    octetI v 24 = toU32 v / 2 ^ 24 % 256 ∧ octetI v 16 = toU32 v / 2 ^ 16 % 256 ∧
    octetI v 8 = toU32 v / 2 ^ 8 % 256 ∧ octetI v 0 = toU32 v % 256 := by
  simp only [octetI_eq]
  norm_num
  unfold toU32
  refine ⟨?_, ?_, ?_, ?_⟩ <;> omega

/-- C14. Big-endian word store with frame: for an SW whose effective address `a` satisfies
`a + 3 < 4096`, with `V` the value of `registers[rt]` as an unsigned 32-bit number, after
`execute` the byte at `a` is bits 31..24 of `V`, the byte at `a+1` bits 23..16, the byte at
`a+2` bits 15..8, the byte at `a+3` bits 7..0, and every byte at an index outside `a .. a+3`
is unchanged. -/
theorem sw_big_endian (s : CPU) (hop : s.opcode = 0x2B) (ha : effectiveAddress s + 3 < 4096) :
    (execute s).memory (effectiveAddress s) = toU32 (s.registers s.rt) / 2 ^ 24 % 256 ∧
    (execute s).memory (effectiveAddress s + 1) = toU32 (s.registers s.rt) / 2 ^ 16 % 256 ∧
    (execute s).memory (effectiveAddress s + 2) = toU32 (s.registers s.rt) / 2 ^ 8 % 256 ∧
    (execute s).memory (effectiveAddress s + 3) = toU32 (s.registers s.rt) % 256 ∧
    ∀ i, (i < effectiveAddress s ∨ effectiveAddress s + 3 < i) →
      (execute s).memory i = s.memory i := by
  obtain ⟨o24, o16, o8, o0⟩ := octetI_unsigned (s.registers s.rt)
  rw [execute_SW s hop, executeSW_ok s ha]
  dsimp only
  refine ⟨?_, ?_, ?_, ?_, ?_⟩
  · rw [Function.update_noteq (by omega), Function.update_noteq (by omega),
      Function.update_noteq (by omega), Function.update_same, o24]
  · rw [Function.update_noteq (by omega), Function.update_noteq (by omega),
      Function.update_same, o16]
  · rw [Function.update_noteq (by omega), Function.update_same, o8]
  · rw [Function.update_same, o0]
  · intro i hi
    rw [Function.update_noteq (by omega), Function.update_noteq (by omega),
      Function.update_noteq (by omega), Function.update_noteq (by omega)]

/-- Witness for C14: `SW $t0,16($zero)` with `$t0 = 0x01020304` writes 1, 2, 3, 4 at
addresses 16..19 and leaves the neighbouring bytes 15 and 20 as they were. -/
theorem sw_big_endian_witness :
    storeOrderState.opcode = 0x2B ∧ effectiveAddress storeOrderState + 3 < 4096 ∧
    effectiveAddress storeOrderState = 16 ∧
    (execute storeOrderState).memory 16 = 1 ∧ (execute storeOrderState).memory 17 = 2 ∧
    (execute storeOrderState).memory 18 = 3 ∧ (execute storeOrderState).memory 19 = 4 ∧
    (execute storeOrderState).memory 15 = 9 ∧ (execute storeOrderState).memory 20 = 9 :=
  ⟨by decide, by decide, by decide,
    (sw_big_endian storeOrderState (by decide) (by decide)).1,
    (sw_big_endian storeOrderState (by decide) (by decide)).2.1,
    (sw_big_endian storeOrderState (by decide) (by decide)).2.2.1,
    (sw_big_endian storeOrderState (by decide) (by decide)).2.2.2.1,
    (sw_big_endian storeOrderState (by decide) (by decide)).2.2.2.2 15 (Or.inl (by decide)),
    (sw_big_endian storeOrderState (by decide) (by decide)).2.2.2.2 20 (Or.inr (by decide))⟩

/-! ## Which instruction may change what -/

theorem execute_memory_of_not_SW (s : CPU) (h : s.opcode ≠ 0x2B) :
    (execute s).memory = s.memory := by
  unfold execute executeRType executeADDI executeBEQ executeSW executeLW
  dsimp only
  split_ifs <;> rfl

theorem execute_PC_of_not_BEQ (s : CPU) (h : s.opcode ≠ 0x04) : (execute s).PC = s.PC := by
  unfold execute executeRType executeADDI executeBEQ executeSW executeLW
  dsimp only
  split_ifs <;> rfl

theorem execute_registers_frame (s : CPU) (i : Nat) (hi : i ≠ 0)
    (hR : ¬ (s.opcode = 0x00 ∧ (s.funct = 0x20 ∨ s.funct = 0x22) ∧ i = s.rd))
    (hI : ¬ (s.opcode = 0x08 ∧ i = s.rt)) (hL : ¬ (s.opcode = 0x23 ∧ i = s.rt)) :
    (execute s).registers i = s.registers i := by
  unfold execute executeRType executeADDI executeBEQ executeSW executeLW
  dsimp only
  rw [Function.update_noteq hi]
  split_ifs with h1 h2 h3 h4 h5 h6 h7 h8 h9 h10
  all_goals first
    | rfl
    | (dsimp only
       rw [Function.update_noteq]
       intro hc
       first
         | exact hR ⟨h1, Or.inl ‹_›, hc⟩
         | exact hR ⟨h1, Or.inr ‹_›, hc⟩
         | exact hI ⟨‹_›, hc⟩
         | exact hL ⟨‹_›, hc⟩)

/-- C15. Ownership of mutation: `execute` changes a memory byte only if the instruction is SW;
it changes a register other than register 0 only if the instruction is ADD or SUB, and then
only `registers[rd]`, or ADDI or LW, and then only `registers[rt]`; it changes the program
counter only if the instruction is BEQ. -/
theorem mutation_ownership (s : CPU) :
    (∀ i, (execute s).memory i ≠ s.memory i → s.opcode = 0x2B) ∧
    (∀ i, i ≠ 0 → (execute s).registers i ≠ s.registers i →
      (s.opcode = 0x00 ∧ (s.funct = 0x20 ∨ s.funct = 0x22) ∧ i = s.rd) ∨
      (s.opcode = 0x08 ∧ i = s.rt) ∨ (s.opcode = 0x23 ∧ i = s.rt)) ∧
    ((execute s).PC ≠ s.PC → s.opcode = 0x04) := by
  refine ⟨?_, ?_, ?_⟩
  · intro i hne
    by_contra hop
    exact hne (by rw [execute_memory_of_not_SW s hop])
  · intro i hi hne
    by_contra hc
    simp only [not_or] at hc
    exact hne (execute_registers_frame s i hi hc.1 hc.2.1 hc.2.2)
  · intro hne
    by_contra hop
    exact hne (execute_PC_of_not_BEQ s hop)

/-- Witness for C15: `SW $t0,16($zero)` changes memory byte 16, `ADD $t3,$t0,$t1` changes
register 11 (its `rd`), and a taken `BEQ $t0,$t1,-2` changes the program counter. -/
theorem mutation_ownership_witness :
    ((execute storeOrderState).memory 16 ≠ storeOrderState.memory 16 ∧
      storeOrderState.opcode = 0x2B) ∧
    ((11 : Nat) ≠ 0 ∧
      (execute (arithState 0x01095820 5 3)).registers 11
        ≠ (arithState 0x01095820 5 3).registers 11 ∧
      (((arithState 0x01095820 5 3).opcode = 0x00 ∧
          ((arithState 0x01095820 5 3).funct = 0x20 ∨
            (arithState 0x01095820 5 3).funct = 0x22) ∧
          11 = (arithState 0x01095820 5 3).rd) ∨
        ((arithState 0x01095820 5 3).opcode = 0x08 ∧ 11 = (arithState 0x01095820 5 3).rt) ∨
        ((arithState 0x01095820 5 3).opcode = 0x23 ∧ 11 = (arithState 0x01095820 5 3).rt))) ∧
    ((execute (arithState 0x1109FFFE 5 5)).PC ≠ (arithState 0x1109FFFE 5 5).PC ∧
      (arithState 0x1109FFFE 5 5).opcode = 0x04) :=
  ⟨⟨by decide, (mutation_ownership storeOrderState).1 16 (by decide)⟩,
    ⟨by decide, by decide,
      (mutation_ownership (arithState 0x01095820 5 3)).2.1 11 (by decide) (by decide)⟩,
    ⟨by decide, (mutation_ownership (arithState 0x1109FFFE 5 5)).2.2 (by decide)⟩⟩

/-! ## The trace line of `execute` -/

/-- C16, as stated, fails: `SW $t0,4096($zero)` and `LW $t0,4096($zero)` are decoded SW and LW
instructions, their effective address 4096 fails the bounds test, and `execute` writes no line
for them (the trace statement is inside the test), so the number of lines is not one. -/
theorem trace_line_absent_when_rejected :
    (storeOutsideState.opcode = 0x2B ∧ effectiveAddress storeOutsideState = 4096 ∧
      executeOutput showDecimal showHexadecimal storeOutsideState = [] ∧
      (executeOutput showDecimal showHexadecimal storeOutsideState).length ≠ 1) ∧
    (loadOutsideState.opcode = 0x23 ∧ effectiveAddress loadOutsideState = 4096 ∧
      executeOutput showDecimal showHexadecimal loadOutsideState = [] ∧
      (executeOutput showDecimal showHexadecimal loadOutsideState).length ≠ 1) := by
  decide

/-- C16, amended. Whatever the stream's rendering of numbers: ADD, SUB and ADDI write exactly
one line, the mnemonic followed by the operands with the registers rendered through
`getRegisterName`; BEQ writes exactly one line that begins with `BEQ`, the name of `rs` and the
name of `rt`; SW and LW write exactly one line, the mnemonic, the name of `rt`, the immediate
and the name of `rs` in parentheses, when the span of the effective address lies inside the
memory (`a + 3 < 4096`), and no line at all when the bounds test rejects the address
(`4096 ≤ a + 3 < 2^32`). -/
theorem trace_line (showInt : Int → String) (showHex : Nat → String) (s : CPU) :
    (s.opcode = 0x00 → s.funct = 0x20 →
      executeOutput showInt showHex s =
        ["ADD " ++ getRegisterName s.rd ++ ", " ++ getRegisterName s.rs ++ ", " ++
          getRegisterName s.rt]) ∧
    (s.opcode = 0x00 → s.funct = 0x22 →
      executeOutput showInt showHex s =
        ["SUB " ++ getRegisterName s.rd ++ ", " ++ getRegisterName s.rs ++ ", " ++
          getRegisterName s.rt]) ∧
    (s.opcode = 0x08 →
      executeOutput showInt showHex s =
        ["ADDI " ++ getRegisterName s.rt ++ ", " ++ getRegisterName s.rs ++ ", " ++
          showInt (toI32 (toI16 s.immediate))]) ∧
    (s.opcode = 0x04 →
      ∃ rest : String, executeOutput showInt showHex s =
        ["BEQ " ++ getRegisterName s.rs ++ ", " ++ getRegisterName s.rt ++ rest]) ∧
    (s.opcode = 0x2B →
      (effectiveAddress s + 3 < 4096 →
        executeOutput showInt showHex s =
          ["SW " ++ getRegisterName s.rt ++ ", " ++ showInt (toI32 (toI16 s.immediate)) ++
            "(" ++ getRegisterName s.rs ++ ")"]) ∧
      (4096 ≤ effectiveAddress s + 3 → effectiveAddress s + 3 < 4294967296 →
        executeOutput showInt showHex s = [])) ∧
    (s.opcode = 0x23 →
      (effectiveAddress s + 3 < 4096 →
        executeOutput showInt showHex s =
          ["LW " ++ getRegisterName s.rt ++ ", " ++ showInt (toI32 (toI16 s.immediate)) ++
            "(" ++ getRegisterName s.rs ++ ")"]) ∧
      (4096 ≤ effectiveAddress s + 3 → effectiveAddress s + 3 < 4294967296 →
        executeOutput showInt showHex s = [])) := by
  refine ⟨?_, ?_, ?_, ?_, ?_, ?_⟩
  · intro hop hf
    unfold executeOutput executeRTypeOutput
    rw [if_pos hop, if_pos hf]
  · intro hop hf
    unfold executeOutput executeRTypeOutput
    rw [if_pos hop, if_neg (by rw [hf]; decide), if_pos hf]
  · intro hop
    unfold executeOutput executeADDIOutput
    rw [if_neg (by rw [hop]; decide), if_pos hop]
  · intro hop
    unfold executeOutput executeBEQOutput
    rw [if_neg (by rw [hop]; decide), if_neg (by rw [hop]; decide), if_pos hop]
    split
    · exact ⟨" -> BRANCH TAKEN to PC = 0x" ++ showHex (executeBEQ s).PC, by
        rw [← String.append_assoc]⟩
    · exact ⟨" -> NOT TAKEN", rfl⟩
  · intro hop
    unfold executeOutput executeSWOutput MEMORY_SIZE
    rw [if_neg (by rw [hop]; decide), if_neg (by rw [hop]; decide),
      if_neg (by rw [hop]; decide), if_pos hop]
    dsimp only
    constructor
    · intro h
      rw [Nat.mod_eq_of_lt (by omega), if_pos h]
    · intro h1 h2
      rw [Nat.mod_eq_of_lt h2, if_neg (by omega)]
  · intro hop
    unfold executeOutput executeLWOutput MEMORY_SIZE
    rw [if_neg (by rw [hop]; decide), if_neg (by rw [hop]; decide),
      if_neg (by rw [hop]; decide), if_neg (by rw [hop]; decide), if_pos hop]
    dsimp only
    constructor
    · intro h
      rw [Nat.mod_eq_of_lt (by omega), if_pos h]
    · intro h1 h2
      rw [Nat.mod_eq_of_lt h2, if_neg (by omega)]

/-- Witness for the amended C16: the lines of `ADD $t3,$t0,$t1`, `SUB $t3,$t0,$t1`,
`ADDI $t1,$t0,-2`, `BEQ $t0,$t1,-2`, `SW $t0,16($zero)`, `LW $t1,16($zero)`, and the absence
of a line for `SW $t0,4096($zero)` and `LW $t0,4096($zero)`. -/
theorem trace_line_witness :
    executeOutput showDecimal showHexadecimal (arithState 0x01095820 5 3)
      = ["ADD $t3, $t0, $t1"] ∧
    executeOutput showDecimal showHexadecimal (arithState 0x01095822 5 3)
      = ["SUB $t3, $t0, $t1"] ∧
    executeOutput showDecimal showHexadecimal (arithState 0x2109FFFE 5 3)
      = ["ADDI $t1, $t0, -2"] ∧
    (∃ rest : String, executeOutput showDecimal showHexadecimal (arithState 0x1109FFFE 5 5)
      = ["BEQ $t0, $t1" ++ rest]) ∧
    (effectiveAddress storeState + 3 < 4096 ∧
      executeOutput showDecimal showHexadecimal storeState = ["SW $t0, 16($zero)"]) ∧
    (4096 ≤ effectiveAddress storeOutsideState + 3 ∧
      executeOutput showDecimal showHexadecimal storeOutsideState = []) ∧
    (effectiveAddress loadState + 3 < 4096 ∧
      executeOutput showDecimal showHexadecimal loadState = ["LW $t1, 16($zero)"]) ∧
    (4096 ≤ effectiveAddress loadOutsideState + 3 ∧
      executeOutput showDecimal showHexadecimal loadOutsideState = []) :=
  ⟨(trace_line showDecimal showHexadecimal (arithState 0x01095820 5 3)).1
      (by decide) (by decide),
    (trace_line showDecimal showHexadecimal (arithState 0x01095822 5 3)).2.1
      (by decide) (by decide),
    (trace_line showDecimal showHexadecimal (arithState 0x2109FFFE 5 3)).2.2.1 (by decide),
    (trace_line showDecimal showHexadecimal (arithState 0x1109FFFE 5 5)).2.2.2.1 (by decide),
    ⟨by decide,
      ((trace_line showDecimal showHexadecimal storeState).2.2.2.2.1 (by decide)).1
        (by decide)⟩,
    ⟨by decide,
      ((trace_line showDecimal showHexadecimal storeOutsideState).2.2.2.2.1 (by decide)).2
        (by decide) (by decide)⟩,
    ⟨by decide,
      ((trace_line showDecimal showHexadecimal loadState).2.2.2.2.2 (by decide)).1
        (by decide)⟩,
    ⟨by decide,
      ((trace_line showDecimal showHexadecimal loadOutsideState).2.2.2.2.2 (by decide)).2
        (by decide) (by decide)⟩⟩

/-! ## Register indices -/

theorem getRegisterName_known : ∀ i, i < 32 → getRegisterName i ≠ "$?" := by
  decide

theorem registerAccesses_lt (s : CPU) (h : s.Decoded) (i : Nat)
    (hi : i ∈ registerAccesses s) : i < 32 := by
  have h1 := h.rs_lt
  have h2 := h.rt_lt
  have h3 := h.rd_lt
  unfold registerAccesses at hi
  split_ifs at hi <;> simp at hi <;> omega

/-- C17. Register-index safety: for every instruction word the decoded `rs`, `rt` and `rd` are
in `0..31`, `opcode` and `funct` in `0..63` and `shamt` in `0..31`; hence every index `execute`
uses in a `registers[...]` expression for the decoded instruction is inside the 32-entry
register file, and the out-of-range branch of the register-name lookup (`"$?"`) is never
taken for a decoded register field. -/
theorem register_index_safety (s : CPU) :
    ((decode s).rs < 32 ∧ (decode s).rt < 32 ∧ (decode s).rd < 32 ∧
      (decode s).opcode < 64 ∧ (decode s).funct < 64 ∧ (decode s).shamt < 32) ∧
    (∀ i, i ∈ registerAccesses (decode s) → i < 32) ∧
    (getRegisterName (decode s).rs ≠ "$?" ∧ getRegisterName (decode s).rt ≠ "$?" ∧
      getRegisterName (decode s).rd ≠ "$?") := by
  have h := decode_Decoded s
  exact ⟨⟨h.rs_lt, h.rt_lt, h.rd_lt, h.opcode_lt, h.funct_lt, h.shamt_lt⟩,
    registerAccesses_lt _ h,
    ⟨getRegisterName_known _ h.rs_lt, getRegisterName_known _ h.rt_lt,
      getRegisterName_known _ h.rd_lt⟩⟩

/-- Witness for C17: the all-ones word `0xFFFFFFFF` decodes to register fields 31, and
`ADD $t3,$t0,$t1` accesses the registers 11, 8, 9 and 0. -/
theorem register_index_safety_witness :
    (decode { rawObject with IR := 0xFFFFFFFF }).rs = 31 ∧
    registerAccesses (decode { rawObject with IR := 0x01095820 }) = [11, 8, 9, 0] ∧
    (11 ∈ registerAccesses (decode { rawObject with IR := 0x01095820 }) ∧ 11 < 32) :=
  ⟨by decide, by decide, by decide,
    (register_index_safety { rawObject with IR := 0x01095820 }).2.1 11 (by decide)⟩

/-! ## Alignment of the program counter -/

theorem executeBEQ_PC_aligned (s : CPU) (h : s.PC % 4 = 0) : (executeBEQ s).PC % 4 = 0 := by
  unfold executeBEQ
  split
  · dsimp only
    rw [shl2_eq]
    unfold toU32 toI32
    omega
  · exact h

theorem execute_PC_aligned (s : CPU) (h : s.PC % 4 = 0) : (execute s).PC % 4 = 0 := by
  by_cases hop : s.opcode = 0x04
  · rw [execute_BEQ s hop]
    exact executeBEQ_PC_aligned s h
  · rw [execute_PC_of_not_BEQ s hop]
    exact h

theorem cycle_PC_aligned (s : CPU) (h : s.PC % 4 = 0) : (cycle s).PC % 4 = 0 := by
  by_cases hf : s.PC + 3 < 4096
  · have e : (fetch s).PC = s.PC + 4 := by rw [fetch_ok s hf]
    unfold cycle
    dsimp only
    split
    · rw [e]; omega
    · rw [finishCycle_PC]
      exact execute_PC_aligned _ (by rw [decode_PC, e]; omega)
  · have e : fetch s = { s with running := false } := fetch_halt s (by omega)
    rw [cycle_of_fetch_halt s (by rw [e]), e]
    exact h

theorem stateAfter_PC_aligned (u : CPU) (m : Nat → Nat) (k : Nat) :
    (stateAfter u m k).PC % 4 = 0 := by
  induction k with
  | zero => rfl
  | succ k ih =>
    unfold stateAfter at ih ⊢
    rw [Function.iterate_succ_apply']
    exact cycle_PC_aligned _ ih

/-- C18. Program-counter alignment: in every state reached from the initial machine (`PC = 0`)
by any number of cycles over any memory contents, the program counter is a multiple of 4.
Consequently, in such a state `fetch` halts the machine when `PC ≥ 4096` and otherwise
advances `PC` by 4 and leaves the running flag alone; and in a cycle that gets as far as the
memory dump (its fetch did not halt, so `PC < 4096` at its start) the dump of the word at the
starting `PC` takes the in-bounds branch. -/
theorem pc_alignment (u : CPU) (m : Nat → Nat) (k : Nat) :
    (stateAfter u m k).PC % 4 = 0 ∧
    (4096 ≤ (stateAfter u m k).PC →
      fetch (stateAfter u m k) = { stateAfter u m k with running := false }) ∧
    ((stateAfter u m k).PC < 4096 →
      (fetch (stateAfter u m k)).PC = (stateAfter u m k).PC + 4 ∧
      (fetch (stateAfter u m k)).running = (stateAfter u m k).running ∧
      printMemoryInBounds (stateAfter u m k).PC = true) ∧
    ((stateAfter u m k).running = true → (fetch (stateAfter u m k)).running = true →
      printMemoryInBounds (stateAfter u m k).PC = true) := by
  have ha := stateAfter_PC_aligned u m k
  have inb : (stateAfter u m k).PC < 4096 → printMemoryInBounds (stateAfter u m k).PC = true := by
    intro h
    unfold printMemoryInBounds MEMORY_SIZE
    rw [Nat.mod_eq_of_lt (by omega)]
    exact decide_eq_true (by omega)
  refine ⟨ha, fun h => fetch_halt _ (by omega), fun h => ?_, fun hr hf => ?_⟩
  · rw [fetch_ok _ (show (stateAfter u m k).PC + 3 < 4096 by omega)]
    exact ⟨rfl, rfl, inb h⟩
  · apply inb
    by_contra hge
    rw [fetch_halt _ (show 4096 ≤ (stateAfter u m k).PC + 3 by omega)] at hf
    exact Bool.false_ne_true hf

/-- Witness for C18: three cycles over a zero memory lead to `PC = 12`, a running machine
whose next fetch succeeds and whose dump at 12 is in bounds; one cycle over `farBranchMemory`
leads to `PC = 131072`, where `fetch` halts the machine. -/
theorem pc_alignment_witness :
    ((stateAfter rawObject (fun _ => 0) 3).PC = 12 ∧
      (stateAfter rawObject (fun _ => 0) 3).PC < 4096 ∧
      (stateAfter rawObject (fun _ => 0) 3).running = true ∧
      (fetch (stateAfter rawObject (fun _ => 0) 3)).running = true ∧
      (fetch (stateAfter rawObject (fun _ => 0) 3)).PC = 12 + 4 ∧
      printMemoryInBounds (stateAfter rawObject (fun _ => 0) 3).PC = true) ∧
    ((stateAfter rawObject farBranchMemory 1).PC = 131072 ∧
      4096 ≤ (stateAfter rawObject farBranchMemory 1).PC ∧
      fetch (stateAfter rawObject farBranchMemory 1)
        = { stateAfter rawObject farBranchMemory 1 with running := false }) :=
  ⟨⟨by decide, by decide, by decide, by decide,
      ((pc_alignment rawObject (fun _ => 0) 3).2.2.1 (by decide)).1,
      (pc_alignment rawObject (fun _ => 0) 3).2.2.2 (by decide) (by decide)⟩,
    ⟨by decide, by decide, (pc_alignment rawObject farBranchMemory 1).2.1 (by decide)⟩⟩

/-! ## Programs without branches and stores -/

theorem execute_running_of_known (s : CPU)
    (h : s.opcode = 0x00 ∨ s.opcode = 0x08 ∨ s.opcode = 0x04 ∨ s.opcode = 0x2B ∨
      s.opcode = 0x23) :
    (execute s).running = s.running := by
  unfold execute executeRType executeADDI executeBEQ executeSW executeLW
  dsimp only
  split_ifs <;> first | rfl | omega

theorem fetch_IR_word (s : CPU) (h : s.PC + 3 < 4096)
    (h1 : s.memory (s.PC + 1) < 256) (h2 : s.memory (s.PC + 2) < 256)
    (h3 : s.memory (s.PC + 3) < 256) :
    (fetch s).IR = (s.memory s.PC * 16777216 + s.memory (s.PC + 1) * 65536 +
      s.memory (s.PC + 2) * 256 + s.memory (s.PC + 3)) % 4294967296 := by
  rw [fetch_ok s h]
  dsimp only
  rw [or_bytes _ _ _ _ h1 h2 h3]

/-- One iteration over an instruction that is neither a branch nor a store nor unknown: the
program counter advances by 4, memory and running flag are unchanged, the counter counts. -/
theorem finishCycle_straight (s : CPU) (h : s.PC + 3 < 4096)
    (h1 : s.memory (s.PC + 1) < 256)
    (h2 : s.memory (s.PC + 2) < 256) (h3 : s.memory (s.PC + 3) < 256)
    (hop : (s.memory s.PC * 2 ^ 24 + s.memory (s.PC + 1) * 2 ^ 16 +
        s.memory (s.PC + 2) * 2 ^ 8 + s.memory (s.PC + 3)) / 2 ^ 26 = 0x00 ∨
      (s.memory s.PC * 2 ^ 24 + s.memory (s.PC + 1) * 2 ^ 16 +
        s.memory (s.PC + 2) * 2 ^ 8 + s.memory (s.PC + 3)) / 2 ^ 26 = 0x08 ∨
      (s.memory s.PC * 2 ^ 24 + s.memory (s.PC + 1) * 2 ^ 16 +
        s.memory (s.PC + 2) * 2 ^ 8 + s.memory (s.PC + 3)) / 2 ^ 26 = 0x23) :
    (finishCycle (fetch s)).PC = s.PC + 4 ∧ (finishCycle (fetch s)).memory = s.memory ∧
    (finishCycle (fetch s)).running = s.running ∧
    (finishCycle (fetch s)).clockCycles = (s.clockCycles + 1) % 18446744073709551616 := by
  have hIR := fetch_IR_word s h h1 h2 h3
  norm_num at hop
  have hdec : (decode (fetch s)).opcode = 0x00 ∨ (decode (fetch s)).opcode = 0x08 ∨
      (decode (fetch s)).opcode = 0x23 := by
    rw [decode_opcode, hIR]
    omega
  have hfk := fetch_ok s h
  refine ⟨?_, ?_, ?_, ?_⟩
  · rw [finishCycle_PC, execute_PC_of_not_BEQ _ (by omega), decode_PC, hfk]
  · rw [finishCycle_memory, execute_memory_of_not_SW _ (by omega), decode_memory, fetch_memory]
  · rw [finishCycle_running, execute_running_of_known _ (by omega), decode_running, hfk]
  · rw [finishCycle_clockCycles, execute_clockCycles, decode_clockCycles, fetch_clockCycles]

/-- The memory image `m` holds octets and every word-aligned word of it has opcode `0x00`,
`0x08` or `0x23`. -/
theorem runLoop_straight (m : Nat → Nat) (hbytes : ∀ i, i < 4096 → m i < 256)
    (hop : ∀ k, k < 1024 →
      (m (4 * k) * 2 ^ 24 + m (4 * k + 1) * 2 ^ 16 + m (4 * k + 2) * 2 ^ 8 + m (4 * k + 3))
          / 2 ^ 26 = 0x00 ∨
      (m (4 * k) * 2 ^ 24 + m (4 * k + 1) * 2 ^ 16 + m (4 * k + 2) * 2 ^ 8 + m (4 * k + 3))
          / 2 ^ 26 = 0x08 ∨
      (m (4 * k) * 2 ^ 24 + m (4 * k + 1) * 2 ^ 16 + m (4 * k + 2) * 2 ^ 8 + m (4 * k + 3))
          / 2 ^ 26 = 0x23)
    (bound : Nat) (hb : bound < 18446744073709551616) (fuel : Nat) (s : CPU) (j : Nat)
    (hrun : s.running = true) (hPC : s.PC = 4 * j) (hj : j ≤ 1024) (hmem : s.memory = m)
    (hcc : s.clockCycles ≤ bound) (hfuel : bound - s.clockCycles ≤ fuel) :
    (runLoop fuel bound s).clockCycles = s.clockCycles + min (bound - s.clockCycles) (1024 - j) ∧
    (runLoop fuel bound s).PC = 4 * (j + min (bound - s.clockCycles) (1024 - j)) ∧
    (runLoop fuel bound s).memory = m ∧
    ((runLoop fuel bound s).running = false ↔ 1024 - j < bound - s.clockCycles) := by
  induction fuel generalizing s j with
  | zero =>
    have e : bound - s.clockCycles = 0 := by omega
    rw [e]
    refine ⟨by simp [runLoop], by simp [runLoop, hPC], hmem, ?_⟩
    simp [runLoop, hrun]
  | succ fuel ih =>
    rw [runLoop_succ]
    by_cases hlt : s.clockCycles < bound
    · rw [hrun, decide_eq_true hlt]
      simp only [Bool.and_self, if_true]
      by_cases hj' : j = 1024
      · -- the program counter has left the memory: the fetch halts the machine
        have hh : fetch s = { s with running := false } := fetch_halt s (by omega)
        rw [hh]
        simp only [Bool.not_false, if_true]
        subst hj'
        refine ⟨by simp, by simp [hPC], hmem, ?_⟩
        simp only [true_iff]
        omega
      · have hf : s.PC + 3 < 4096 := by omega
        have hbk := hop j (by omega)
        rw [← hmem, ← hPC] at hbk
        have hstep := finishCycle_straight s hf
          (by rw [hmem]; exact hbytes _ (by omega))
          (by rw [hmem]; exact hbytes _ (by omega))
          (by rw [hmem]; exact hbytes _ (by omega)) hbk
        obtain ⟨sPC, smem, srun, scc⟩ := hstep
        rw [Nat.mod_eq_of_lt (by omega)] at scc
        have hfr : (fetch s).running = true := by rw [fetch_ok s hf]; exact hrun
        rw [hfr]
        simp only [Bool.not_true, Bool.false_eq_true, if_false]
        have := ih (finishCycle (fetch s)) (j + 1) (by rw [srun]; exact hrun)
          (by rw [sPC, hPC]; ring) (by omega) (by rw [smem]; exact hmem)
          (by rw [scc]; omega) (by rw [scc]; omega)
        rw [scc] at this
        obtain ⟨a1, a2, a3, a4⟩ := this
        refine ⟨by rw [a1]; omega, by rw [a2]; omega, a3, ?_⟩
        rw [a4]
        omega
    · have e : bound - s.clockCycles = 0 := by omega
      rw [e]
      have hc : (s.running && decide (s.clockCycles < bound)) = false := by
        simp [hlt]
      rw [hc]
      simp only [if_false, Bool.false_eq_true]
      refine ⟨by simp, by simp [hPC], hmem, ?_⟩
      simp [hrun]

/-- The length of a straight-line run, in the model where every array access lands in a cell
(`run`): over a memory image of octets in which every word-aligned word has opcode `0x00`,
`0x08` or `0x23`, `run` with a non-negative `int` budget `n` from the initial machine ends
with the cycle counter `min(n, 1024)` and the program counter `4 * min(n, 1024)`, leaves the
memory unchanged, and ends with the running flag false if and only if `n > 1024`. -/
theorem straight_line_run_flat (u : CPU) (m : Nat → Nat) (n : Int)
    (hbytes : ∀ i, i < 4096 → m i < 256)
    (hop : ∀ k, k < 1024 →
      (m (4 * k) * 2 ^ 24 + m (4 * k + 1) * 2 ^ 16 + m (4 * k + 2) * 2 ^ 8 + m (4 * k + 3))
          / 2 ^ 26 = 0x00 ∨
      (m (4 * k) * 2 ^ 24 + m (4 * k + 1) * 2 ^ 16 + m (4 * k + 2) * 2 ^ 8 + m (4 * k + 3))
          / 2 ^ 26 = 0x08 ∨
      (m (4 * k) * 2 ^ 24 + m (4 * k + 1) * 2 ^ 16 + m (4 * k + 2) * 2 ^ 8 + m (4 * k + 3))
          / 2 ^ 26 = 0x23)
    (hn0 : 0 ≤ n) (hn1 : n < 2147483648) :
    ((run (initialMachine u m) n).clockCycles : Int) = min n 1024 ∧
    ((run (initialMachine u m) n).PC : Int) = 4 * min n 1024 ∧
    (run (initialMachine u m) n).memory = m ∧
    ((run (initialMachine u m) n).running = false ↔ 1024 < n) := by
  have hb : toU64 n = n.toNat := toU64_of_range n hn0 (by omega)
  have key := runLoop_straight m hbytes hop (toU64 n) (by rw [hb]; omega)
    (toU64 n - (initialMachine u m).clockCycles) (initialMachine u m) 0 rfl rfl (by omega) rfl
    (Nat.zero_le _) (le_refl _)
  have hcc : (initialMachine u m).clockCycles = 0 := rfl
  rw [hcc, hb] at key
  obtain ⟨k1, k2, k3, k4⟩ := key
  have e : run (initialMachine u m) n = runLoop (n.toNat - 0) n.toNat (initialMachine u m) := by
    unfold run
    rw [hcc, hb]
  rw [e]
  refine ⟨by rw [k1]; omega, by rw [k2]; omega, k3, ?_⟩
  rw [k4]
  omega

/-! ## The program loader -/

theorem foldl_loadLine (extract : List Char → Option Nat) (ls : List (List Char))
    (st : CPU × Nat) :
    ls.foldl (loadLine extract) st
      = (ls.filterMap (lineWord extract)).foldl loadInstruction st := by
  induction ls generalizing st with
  | nil => rfl
  | cons l ls ih =>
    rw [List.foldl_cons, ih]
    unfold loadLine
    cases h : lineWord extract l with
    | none => rw [List.filterMap_cons_none h]
    | some w => rw [List.filterMap_cons_some h, List.foldl_cons]

theorem loadProgram_eq_loadWords (extract : List Char → Option Nat) (lines : List String)
    (s : CPU) : loadProgram extract lines s = loadWords (codeWords extract lines) s := by
  unfold loadProgram loadWords codeWords
  rw [foldl_loadLine]

theorem loadInstruction_ok (st : CPU × Nat) (w : Nat) (h : st.2 + 3 < 4096) :
    loadInstruction st w =
      ({ st.1 with
         memory := Function.update (Function.update (Function.update (Function.update
           st.1.memory st.2 (w / 2 ^ 24 % 256)) (st.2 + 1) (w / 2 ^ 16 % 256))
           (st.2 + 2) (w / 2 ^ 8 % 256)) (st.2 + 3) (w % 256) }, st.2 + 4) := by
  unfold loadInstruction MEMORY_SIZE
  dsimp only
  rw [Nat.mod_eq_of_lt (show st.2 + 1 < 4294967296 by omega),
    Nat.mod_eq_of_lt (show st.2 + 2 < 4294967296 by omega),
    Nat.mod_eq_of_lt (show st.2 + 3 < 4294967296 by omega),
    Nat.mod_eq_of_lt (show st.2 + 4 < 4294967296 by omega), if_pos h]
  simp only [and_0xFF, Nat.shiftRight_eq_div_pow]

theorem loadInstruction_full (st : CPU × Nat) (w : Nat) (h1 : 4096 ≤ st.2 + 3)
    (h2 : st.2 + 3 < 4294967296) : loadInstruction st w = st := by
  unfold loadInstruction MEMORY_SIZE
  dsimp only
  rw [Nat.mod_eq_of_lt h2, if_neg (by omega)]

/-- The memory image after storing the words `ws` from address 0 into a machine whose memory
is zero: the local `address` is `4 * min(k, 1024)`, word `i` occupies the bytes
`4i .. 4i+3`, most significant octet first, and the bytes from `address` on are zero. -/
theorem foldl_loadInstruction_image (s : CPU) (hz : ∀ j, j < 4096 → s.memory j = 0)
    (ws : List Nat) :
    (ws.foldl loadInstruction (s, 0)).2 = 4 * min ws.length 1024 ∧
    (∀ i w, i < 1024 → ws[i]? = some w →
      (ws.foldl loadInstruction (s, 0)).1.memory (4 * i) = w / 2 ^ 24 % 256 ∧
      (ws.foldl loadInstruction (s, 0)).1.memory (4 * i + 1) = w / 2 ^ 16 % 256 ∧
      (ws.foldl loadInstruction (s, 0)).1.memory (4 * i + 2) = w / 2 ^ 8 % 256 ∧
      (ws.foldl loadInstruction (s, 0)).1.memory (4 * i + 3) = w % 256) ∧
    (∀ j, 4 * min ws.length 1024 ≤ j → j < 4096 →
      (ws.foldl loadInstruction (s, 0)).1.memory j = 0) := by
  induction ws using List.reverseRecOn with
  | nil =>
    refine ⟨rfl, ?_, fun j _ hj => hz j hj⟩
    intro i w _ h
    simp at h
  | append_singleton ws x ih =>
    obtain ⟨ha, hw, hrest⟩ := ih
    rw [List.foldl_append, List.foldl_cons, List.foldl_nil, List.length_append,
      List.length_singleton]
    by_cases hlen : ws.length < 1024
    · have hmin : min ws.length 1024 = ws.length := by omega
      have hmin' : min (ws.length + 1) 1024 = ws.length + 1 := by omega
      rw [hmin] at ha hrest
      rw [hmin', loadInstruction_ok _ x (by rw [ha]; omega), ha]
      dsimp only
      refine ⟨by omega, ?_, ?_⟩
      · intro i w hi hget
        by_cases hil : i < ws.length
        · rw [List.getElem?_append_left hil] at hget
          obtain ⟨b0, b1, b2, b3⟩ := hw i w hi hget
          refine ⟨?_, ?_, ?_, ?_⟩
          · rw [Function.update_noteq (by omega), Function.update_noteq (by omega),
              Function.update_noteq (by omega), Function.update_noteq (by omega), b0]
          · rw [Function.update_noteq (by omega), Function.update_noteq (by omega),
              Function.update_noteq (by omega), Function.update_noteq (by omega), b1]
          · rw [Function.update_noteq (by omega), Function.update_noteq (by omega),
              Function.update_noteq (by omega), Function.update_noteq (by omega), b2]
          · rw [Function.update_noteq (by omega), Function.update_noteq (by omega),
              Function.update_noteq (by omega), Function.update_noteq (by omega), b3]
        · have hge : ws.length ≤ i := by omega
          rw [List.getElem?_append_right hge] at hget
          have hi0 : i = ws.length := by
            by_contra hne
            have : i - ws.length ≠ 0 := by omega
            obtain ⟨d, hd⟩ := Nat.exists_eq_succ_of_ne_zero this
            rw [hd] at hget
            simp at hget
          subst hi0
          simp only [Nat.sub_self, List.getElem?_cons_zero, Option.some.injEq] at hget
          subst hget
          refine ⟨?_, ?_, ?_, ?_⟩
          · rw [Function.update_noteq (by omega), Function.update_noteq (by omega),
              Function.update_noteq (by omega), Function.update_same]
          · rw [Function.update_noteq (by omega), Function.update_noteq (by omega),
              Function.update_same]
          · rw [Function.update_noteq (by omega), Function.update_same]
          · rw [Function.update_same]
      · intro j hj1 hj2
        rw [Function.update_noteq (by omega), Function.update_noteq (by omega),
          Function.update_noteq (by omega), Function.update_noteq (by omega)]
        exact hrest j (by omega) hj2
    · have hmin : min ws.length 1024 = 1024 := by omega
      have hmin' : min (ws.length + 1) 1024 = 1024 := by omega
      rw [hmin] at ha hrest
      rw [hmin', loadInstruction_full _ x (by rw [ha]; decide) (by rw [ha]; decide)]
      refine ⟨ha, ?_, hrest⟩
      intro i w hi hget
      rw [List.getElem?_append_left (by omega)] at hget
      exact hw i w hi hget

theorem codeWords_lt (extract : List Char → Option Nat)
    (hext : ∀ t w, extract t = some w → w < 4294967296) (lines : List String) (w : Nat)
    (hw : w ∈ codeWords extract lines) : w < 4294967296 := by
  unfold codeWords at hw
  rw [List.mem_filterMap] at hw
  obtain ⟨l, -, hl⟩ := hw
  unfold lineWord at hl
  split at hl
  · exact absurd hl (by simp)
  · exact hext _ w hl

theorem parseHex_lt (t : List Char) (w : Nat) (h : parseHex t = some w) : w < 4294967296 := by
  unfold parseHex at h
  split at h
  · exact absurd h (by simp)
  · split at h
    · split at h
      · rename_i hv
        simp only [Option.some.injEq] at h
        omega
      · exact absurd h (by simp)
    · exact absurd h (by simp)

/-- C12, as stated, fails: the line `zz0x20080005` is non-empty, does not begin with `#` or
`;`, and is not hexadecimal after stripping an optional `0x`/`0X` prefix (it has none), so it
contributes no word and the claim leaves the whole memory zero; but the loader drops everything
up to the first `0x` wherever it occurs, reads `20080005`, and stores it at address 0. -/
theorem load_image_fails_on_inner_marker :
    specWords parseHex ["zz0x20080005"] = [] ∧
    (loadProgram parseHex ["zz0x20080005"] (CPU.new rawObject)).memory 0 = 0x20 ∧
    ¬ (∀ j, 4 * min (specWords parseHex ["zz0x20080005"]).length 1024 ≤ j → j < 4096 →
      (loadProgram parseHex ["zz0x20080005"] (CPU.new rawObject)).memory j = 0) := by
  refine ⟨by decide, by decide, fun h => ?_⟩
  have h0 := h 0 (by decide) (by decide)
  revert h0
  decide

/-- C12, amended. Whatever the stream extraction does (as long as it yields 32-bit words): let
`w_0 .. w_{k-1}` be, in order, the words of the lines that are non-empty, do not begin with `#`
or `;`, and whose text after the first `0x` (if the line contains one, anywhere) and then after
the first `0X` of what is left (if any) is extracted successfully. After `loadProgram` on a
fresh machine, for every `i < min(k, 1024)` the bytes `4i .. 4i+3` are the octets of `w_i`,
most significant first, so the big-endian word at address `4i` is `w_i`; every other memory
byte is zero. Skipped lines occupy no address and words beyond the 1024th are dropped. -/
theorem load_image (extract : List Char → Option Nat)
    (hext : ∀ t w, extract t = some w → w < 4294967296) (lines : List String) (u : CPU) :
    (∀ i w, i < 1024 → (codeWords extract lines)[i]? = some w →
      ((loadProgram extract lines (CPU.new u)).memory (4 * i) = w / 2 ^ 24 % 256 ∧
        (loadProgram extract lines (CPU.new u)).memory (4 * i + 1) = w / 2 ^ 16 % 256 ∧
        (loadProgram extract lines (CPU.new u)).memory (4 * i + 2) = w / 2 ^ 8 % 256 ∧
        (loadProgram extract lines (CPU.new u)).memory (4 * i + 3) = w % 256) ∧
      (loadProgram extract lines (CPU.new u)).memory (4 * i) * 2 ^ 24 +
        (loadProgram extract lines (CPU.new u)).memory (4 * i + 1) * 2 ^ 16 +
        (loadProgram extract lines (CPU.new u)).memory (4 * i + 2) * 2 ^ 8 +
        (loadProgram extract lines (CPU.new u)).memory (4 * i + 3) = w) ∧
    (∀ j, 4 * min (codeWords extract lines).length 1024 ≤ j → j < 4096 →
      (loadProgram extract lines (CPU.new u)).memory j = 0) := by
  have hz : ∀ j, j < 4096 → (CPU.new u).memory j = 0 := by
    intro j hj
    show (if j < 4096 then 0 else u.memory j) = 0
    rw [if_pos hj]
  obtain ⟨-, hw, hrest⟩ := foldl_loadInstruction_image (CPU.new u) hz (codeWords extract lines)
  rw [loadProgram_eq_loadWords]
  unfold loadWords
  refine ⟨?_, hrest⟩
  intro i w hi hget
  have hlt := codeWords_lt extract hext lines w (List.getElem?_mem hget)
  obtain ⟨b0, b1, b2, b3⟩ := hw i w hi hget
  refine ⟨⟨b0, b1, b2, b3⟩, ?_⟩
  rw [b0, b1, b2, b3]
  omega

/-- Witness for the amended C12: a file with comment lines, an empty line and the malformed
line `zz` between `20080005`, `0x20090003` and `0X01095820` loads exactly these three words, at
addresses 0, 4 and 8, and leaves byte 12 zero. -/
theorem load_image_witness :
    codeWords parseHex commentedSource = [0x20080005, 0x20090003, 0x01095820] ∧
    ((1 : Nat) < 1024 ∧ (codeWords parseHex commentedSource)[1]? = some 0x20090003 ∧
      (loadProgram parseHex commentedSource (CPU.new rawObject)).memory (4 * 1) * 2 ^ 24 +
        (loadProgram parseHex commentedSource (CPU.new rawObject)).memory (4 * 1 + 1) * 2 ^ 16 +
        (loadProgram parseHex commentedSource (CPU.new rawObject)).memory (4 * 1 + 2) * 2 ^ 8 +
        (loadProgram parseHex commentedSource (CPU.new rawObject)).memory (4 * 1 + 3)
        = 0x20090003) ∧
    (4 * min (codeWords parseHex commentedSource).length 1024 ≤ 12 ∧ (12 : Nat) < 4096 ∧
      (loadProgram parseHex commentedSource (CPU.new rawObject)).memory 12 = 0) :=
  ⟨by decide,
    ⟨by decide, by decide,
      ((load_image parseHex parseHex_lt commentedSource rawObject).1 1 0x20090003
        (by decide) (by decide)).2⟩,
    ⟨by decide, by decide,
      (load_image parseHex parseHex_lt commentedSource rawObject).2 12 (by decide) (by decide)⟩⟩

/-! ## Runs that index an array outside its bounds -/

theorem memoryAccessOutside_iff (s : CPU) :
    memoryAccessOutside s = true ↔
      (s.opcode = 0x2B ∨ s.opcode = 0x23) ∧ 4294967296 ≤ effectiveAddress s + 3 := by
  have hlt := effectiveAddress_lt s
  unfold memoryAccessOutside MEMORY_SIZE
  simp only [Bool.and_eq_true, Bool.or_eq_true, decide_eq_true_eq, Bool.not_eq_true',
    Bool.and_eq_false_iff, decide_eq_false_iff_not]
  constructor
  · rintro ⟨⟨hop, hg⟩, hout⟩
    exact ⟨hop, by omega⟩
  · rintro ⟨hop, hw⟩
    exact ⟨⟨hop, by omega⟩, by omega⟩

theorem registerAccessOutside_of_Decoded (s : CPU) (h : s.Decoded) :
    registerAccessOutside s = false := by
  unfold registerAccessOutside NUM_REGISTERS
  rw [List.any_eq_false]
  intro i hi
  have := registerAccesses_lt s h i hi
  simp only [decide_eq_true_eq]
  omega

theorem executeChecked_eq_some (s r : CPU) (h : executeChecked s = some r) : r = execute s := by
  unfold executeChecked at h
  split at h
  · exact absurd h (by simp)
  · exact (Option.some.inj h).symm

theorem executeChecked_decode (s : CPU)
    (h : memoryAccessOutside (decode s) = false) :
    executeChecked (decode s) = some (execute (decode s)) := by
  unfold executeChecked
  rw [registerAccessOutside_of_Decoded _ (decode_Decoded s), h]
  rfl

theorem executeChecked_decode_none (s : CPU)
    (h : memoryAccessOutside (decode s) = true) : executeChecked (decode s) = none := by
  unfold executeChecked
  rw [h]
  simp

theorem runLoopChecked_succ (fuel bound : Nat) (s : CPU) :
    runLoopChecked (fuel + 1) bound s =
      if s.running && decide (s.clockCycles < bound) then
        if !(fetch s).running then some (fetch s)
        else
          match executeChecked (decode (fetch s)) with
          | none => none
          | some s2 =>
            runLoopChecked fuel bound
              { s2 with clockCycles := (s2.clockCycles + 1) % 18446744073709551616 }
      else some s := rfl

/-- A run that has a result in the bounds-checked loop has the result `runLoop` computes. -/
theorem runLoopChecked_eq_some (fuel bound : Nat) (s r : CPU)
    (h : runLoopChecked fuel bound s = some r) : r = runLoop fuel bound s := by
  induction fuel generalizing s with
  | zero => exact (Option.some.inj h).symm
  | succ fuel ih =>
    rw [runLoopChecked_succ] at h
    rw [runLoop_succ]
    split at h
    · rename_i hc
      rw [if_pos hc]
      split at h
      · rename_i hr
        rw [if_pos hr]
        exact (Option.some.inj h).symm
      · rename_i hr
        rw [if_neg hr]
        cases he : executeChecked (decode (fetch s)) with
        | none => rw [he] at h; exact absurd h (by simp)
        | some s2 =>
          rw [he] at h
          have e2 := executeChecked_eq_some _ _ he
          subst e2
          exact ih _ h
    · rename_i hc
      rw [if_neg hc]
      exact (Option.some.inj h).symm

theorem runChecked_eq_some (s r : CPU) (n : Int) (h : runChecked s n = some r) :
    r = run s n :=
  runLoopChecked_eq_some _ _ s r h

/-- A run all of whose iterations stay inside the arrays has a result: if `P` holds of the
starting state and every iteration entered in a state satisfying `P` with a successful fetch
makes no access outside the memory array and re-establishes `P`, the bounds-checked loop
returns what `runLoop` computes. -/
theorem runLoopChecked_of_invariant (P : CPU → Prop)
    (hstep : ∀ t, P t → t.running = true → (fetch t).running = true →
      memoryAccessOutside (decode (fetch t)) = false ∧ P (finishCycle (fetch t)))
    (fuel bound : Nat) (s : CPU) (hs : P s) :
    runLoopChecked fuel bound s = some (runLoop fuel bound s) := by
  induction fuel generalizing s with
  | zero => rfl
  | succ fuel ih =>
    rw [runLoopChecked_succ, runLoop_succ]
    split
    · rename_i hc
      simp only [Bool.and_eq_true, decide_eq_true_eq] at hc
      split
      · rfl
      · rename_i hr
        have hf : (fetch s).running = true := by simpa using hr
        obtain ⟨hsafe, hP⟩ := hstep s hs hc.1 hf
        rw [executeChecked_decode _ hsafe]
        exact ih _ hP
    · rfl

theorem executeChecked_decode_eq_none (s : CPU) (h : executeChecked (decode s) = none) :
    ((decode s).opcode = 0x2B ∨ (decode s).opcode = 0x23) ∧
    4294967296 ≤ effectiveAddress (decode s) + 3 := by
  rw [← memoryAccessOutside_iff]
  cases hm : memoryAccessOutside (decode s) with
  | true => rfl
  | false =>
    rw [executeChecked_decode s hm] at h
    exact absurd h (by simp)

/-- The only way a run has no result: some iteration, entered with the machine running and a
successful fetch, decodes an SW or LW whose effective address `a` has `a + 3 ≥ 2^32`, the case
in which the bounds test of `executeSW` and `executeLW` wraps. -/
theorem runLoopChecked_eq_none (fuel bound : Nat) (s : CPU)
    (h : runLoopChecked fuel bound s = none) :
    ∃ k, (Nat.iterate cycle k s).running = true ∧
      (fetch (Nat.iterate cycle k s)).running = true ∧
      ((decode (fetch (Nat.iterate cycle k s))).opcode = 0x2B ∨
        (decode (fetch (Nat.iterate cycle k s))).opcode = 0x23) ∧
      4294967296 ≤ effectiveAddress (decode (fetch (Nat.iterate cycle k s))) + 3 := by
  induction fuel generalizing s with
  | zero => exact absurd h (by simp [runLoopChecked])
  | succ fuel ih =>
    rw [runLoopChecked_succ] at h
    split at h
    · rename_i hc
      simp only [Bool.and_eq_true, decide_eq_true_eq] at hc
      split at h
      · exact absurd h (by simp)
      · rename_i hr
        have hf : (fetch s).running = true := by simpa using hr
        cases he : executeChecked (decode (fetch s)) with
        | none =>
          obtain ⟨h1, h2⟩ := executeChecked_decode_eq_none _ he
          exact ⟨0, hc.1, hf, h1, h2⟩
        | some s2 =>
          rw [he] at h
          have e2 := executeChecked_eq_some _ _ he
          subst e2
          obtain ⟨k, hk⟩ := ih (finishCycle (fetch s)) h
          rw [← cycle_of_fetch_ok s hf] at hk
          exact ⟨k + 1, by rw [Function.iterate_succ_apply]; exact hk⟩
    · exact absurd h (by simp)

/-- The budget properties of `run`, for every run that stays inside the arrays (a run with a
result in `runChecked`) and every budget `n` that is a non-negative `int`: the returned state
has the loop condition false, the cycle counter does not decrease, stays within `n` if it
started within `n`, has reached `n` if the machine is still running, and the run is a number
of loop iterations each of which adds 1 to the counter after a successful fetch and nothing
after a failed one. -/
theorem run_budget_checked (s r : CPU) (n : Int) (hn0 : 0 ≤ n) (hn1 : n < 2147483648)
    (h : runChecked s n = some r) :
    (r.running && decide (r.clockCycles < n.toNat)) = false ∧
    s.clockCycles ≤ r.clockCycles ∧
    ((s.clockCycles : Int) ≤ n → (r.clockCycles : Int) ≤ n) ∧
    (r.running = true → n ≤ (r.clockCycles : Int)) ∧
    (∃ k, r = Nat.iterate cycle k s ∧
      ∀ j, j < k → (Nat.iterate cycle j s).running = true ∧
        ((Nat.iterate cycle j s).clockCycles : Int) < n) ∧
    (∀ t : CPU, t.running = true → (t.clockCycles : Int) < n →
      ((fetch t).running = true → (cycle t).clockCycles = t.clockCycles + 1) ∧
      ((fetch t).running = false → (cycle t).clockCycles = t.clockCycles)) := by
  have e := runChecked_eq_some s r n h
  subst e
  exact run_budget_flat s n hn0 hn1

/-- An instance of `run_budget_checked`: the three-instruction addition program under a
budget of 2 cycles stays inside the arrays and stops, still running, after 2 cycles. -/
theorem run_budget_checked_example :
    runChecked (additionProgram rawObject) 2 = some (run (additionProgram rawObject) 2) ∧
    ((run (additionProgram rawObject) 2).clockCycles : Int) ≤ 2 ∧
    (run (additionProgram rawObject) 2).running = true ∧
    (2 : Int) ≤ ((run (additionProgram rawObject) 2).clockCycles : Int) :=
  ⟨rfl,
    (run_budget_checked (additionProgram rawObject) _ 2 (by decide) (by decide) rfl).2.2.1
      (by decide),
    by decide,
    (run_budget_checked (additionProgram rawObject) _ 2 (by decide) (by decide) rfl).2.2.2.1
      (by decide)⟩

/-- C11, at a failing input. The machine loaded with `ADDI $t0,$zero,5` and `SW $t0,-1($zero)`
is running with cycle counter 0. In its second cycle the decoded instruction is an SW with
effective address `0xFFFFFFFF`; the bounds test, computed in `uint32_t`, lets the store
through although its first index is outside the 4096-byte array, so `execute` has no defined
outcome; `run`, under the budget 2 as under the default budget 1000, does not return a final
state with a final cycle counter. -/
theorem run_undefined_on_wrapped_store :
    storeWrapProgram.running = true ∧ storeWrapProgram.clockCycles = 0 ∧
    storeWrapState.opcode = 0x2B ∧ effectiveAddress storeWrapState = 4294967295 ∧
    (effectiveAddress storeWrapState + 3) % 4294967296 < MEMORY_SIZE ∧
    MEMORY_SIZE ≤ effectiveAddress storeWrapState ∧
    memoryAccessOutside storeWrapState = true ∧
    executeChecked storeWrapState = none ∧
    runChecked storeWrapProgram 2 = none ∧
    runChecked storeWrapProgram 1000 = none :=
  ⟨by decide, by decide, by decide, by decide, by decide, by decide, by decide, rfl, rfl, rfl⟩

theorem decode_fetch_opcode (s : CPU) (h : s.PC + 3 < 4096)
    (h1 : s.memory (s.PC + 1) < 256) (h2 : s.memory (s.PC + 2) < 256)
    (h3 : s.memory (s.PC + 3) < 256) :
    (decode (fetch s)).opcode = (s.memory s.PC * 16777216 + s.memory (s.PC + 1) * 65536 +
      s.memory (s.PC + 2) * 256 + s.memory (s.PC + 3)) % 4294967296 / 67108864 % 64 := by
  rw [decode_opcode, fetch_IR_word s h h1 h2 h3]

/-- The length of a straight-line run, for every run that stays inside the arrays (a run with
a result in `runChecked`): over a memory image of octets in which every word-aligned word has
opcode `0x00`, `0x08` or `0x23`, and for a non-negative `int` budget `n`, the returned state
has the cycle counter `min(n, 1024)` and the program counter `4 * min(n, 1024)`, the memory is
unchanged, and the running flag is false if and only if `n > 1024`. -/
theorem straight_line_run_checked (u r : CPU) (m : Nat → Nat) (n : Int)
    (hbytes : ∀ i, i < 4096 → m i < 256)
    (hop : ∀ k, k < 1024 →
      (m (4 * k) * 2 ^ 24 + m (4 * k + 1) * 2 ^ 16 + m (4 * k + 2) * 2 ^ 8 + m (4 * k + 3))
          / 2 ^ 26 = 0x00 ∨
      (m (4 * k) * 2 ^ 24 + m (4 * k + 1) * 2 ^ 16 + m (4 * k + 2) * 2 ^ 8 + m (4 * k + 3))
          / 2 ^ 26 = 0x08 ∨
      (m (4 * k) * 2 ^ 24 + m (4 * k + 1) * 2 ^ 16 + m (4 * k + 2) * 2 ^ 8 + m (4 * k + 3))
          / 2 ^ 26 = 0x23)
    (hn0 : 0 ≤ n) (hn1 : n < 2147483648)
    (h : runChecked (initialMachine u m) n = some r) :
    (r.clockCycles : Int) = min n 1024 ∧ (r.PC : Int) = 4 * min n 1024 ∧ r.memory = m ∧
    (r.running = false ↔ 1024 < n) := by
  have e := runChecked_eq_some _ r n h
  subst e
  exact straight_line_run_flat u m n hbytes hop hn0 hn1

/-- Without LW: over a memory image of octets in which every word-aligned word has opcode
`0x00` or `0x08` (in particular the all-zero memory of an empty program), every run from the
initial machine stays inside the arrays, so `run` returns, with the cycle counter
`min(n, 1024)`, the program counter `4 * min(n, 1024)`, the memory unchanged and the running
flag false if and only if `n > 1024`. -/
theorem straight_line_run_inside (u : CPU) (m : Nat → Nat) (n : Int)
    (hbytes : ∀ i, i < 4096 → m i < 256)
    (hop : ∀ k, k < 1024 →
      (m (4 * k) * 2 ^ 24 + m (4 * k + 1) * 2 ^ 16 + m (4 * k + 2) * 2 ^ 8 + m (4 * k + 3))
          / 2 ^ 26 = 0x00 ∨
      (m (4 * k) * 2 ^ 24 + m (4 * k + 1) * 2 ^ 16 + m (4 * k + 2) * 2 ^ 8 + m (4 * k + 3))
          / 2 ^ 26 = 0x08)
    (hn0 : 0 ≤ n) (hn1 : n < 2147483648) :
    runChecked (initialMachine u m) n = some (run (initialMachine u m) n) ∧
    ((run (initialMachine u m) n).clockCycles : Int) = min n 1024 ∧
    ((run (initialMachine u m) n).PC : Int) = 4 * min n 1024 ∧
    (run (initialMachine u m) n).memory = m ∧
    ((run (initialMachine u m) n).running = false ↔ 1024 < n) := by
  have hop3 : ∀ k, k < 1024 →
      (m (4 * k) * 2 ^ 24 + m (4 * k + 1) * 2 ^ 16 + m (4 * k + 2) * 2 ^ 8 + m (4 * k + 3))
          / 2 ^ 26 = 0x00 ∨
      (m (4 * k) * 2 ^ 24 + m (4 * k + 1) * 2 ^ 16 + m (4 * k + 2) * 2 ^ 8 + m (4 * k + 3))
          / 2 ^ 26 = 0x08 ∨
      (m (4 * k) * 2 ^ 24 + m (4 * k + 1) * 2 ^ 16 + m (4 * k + 2) * 2 ^ 8 + m (4 * k + 3))
          / 2 ^ 26 = 0x23 := by
    intro k hk
    rcases hop k hk with h | h
    · exact Or.inl h
    · exact Or.inr (Or.inl h)
  refine ⟨?_, straight_line_run_flat u m n hbytes hop3 hn0 hn1⟩
  apply runLoopChecked_of_invariant (fun t => t.memory = m ∧ ∃ j, j ≤ 1024 ∧ t.PC = 4 * j)
  · rintro t ⟨hmem, j, hj, hPC⟩ _ hf
    have hlt : t.PC + 3 < 4096 := by
      by_contra hge
      rw [fetch_halt t (by omega)] at hf
      exact Bool.false_ne_true hf
    have hbk := hop j (by omega)
    have hbk3 := hop3 j (by omega)
    rw [← hmem, ← hPC] at hbk hbk3
    have b1 : t.memory (t.PC + 1) < 256 := by rw [hmem]; exact hbytes _ (by omega)
    have b2 : t.memory (t.PC + 2) < 256 := by rw [hmem]; exact hbytes _ (by omega)
    have b3 : t.memory (t.PC + 3) < 256 := by rw [hmem]; exact hbytes _ (by omega)
    obtain ⟨sPC, smem, -, -⟩ := finishCycle_straight t hlt b1 b2 b3 hbk3
    have hdec := decode_fetch_opcode t hlt b1 b2 b3
    norm_num at hbk
    refine ⟨?_, by rw [smem]; exact hmem, j + 1, by omega, by rw [sPC, hPC]; ring⟩
    rw [Bool.eq_false_iff]
    intro hout
    rw [memoryAccessOutside_iff] at hout
    omega
  · exact ⟨rfl, 0, by omega, rfl⟩

/-- An instance of `straight_line_run_inside`: the all-zero memory of an empty program under
the default budget of 1000 cycles: the run stays inside the arrays, 1000 cycles are reported,
the program counter is 4000 and the machine has not halted. -/
theorem straight_line_run_inside_example :
    runChecked (initialMachine rawObject (fun _ => 0)) 1000
      = some (run (initialMachine rawObject (fun _ => 0)) 1000) ∧
    ((run (initialMachine rawObject (fun _ => 0)) 1000).clockCycles : Int) = 1000 ∧
    ((run (initialMachine rawObject (fun _ => 0)) 1000).PC : Int) = 4000 ∧
    ((run (initialMachine rawObject (fun _ => 0)) 1000).running = false ↔ (1024 : Int) < 1000) :=
  ⟨(straight_line_run_inside rawObject (fun _ => 0) 1000
      (fun _ _ => show (0 : Nat) < 256 by decide)
      (fun _ _ => Or.inl (show (0 * 2 ^ 24 + 0 * 2 ^ 16 + 0 * 2 ^ 8 + 0) / 2 ^ 26 = 0 by decide))
      (by decide) (by decide)).1,
    (straight_line_run_inside rawObject (fun _ => 0) 1000
      (fun _ _ => show (0 : Nat) < 256 by decide)
      (fun _ _ => Or.inl (show (0 * 2 ^ 24 + 0 * 2 ^ 16 + 0 * 2 ^ 8 + 0) / 2 ^ 26 = 0 by decide))
      (by decide) (by decide)).2.1,
    (straight_line_run_inside rawObject (fun _ => 0) 1000
      (fun _ _ => show (0 : Nat) < 256 by decide)
      (fun _ _ => Or.inl (show (0 * 2 ^ 24 + 0 * 2 ^ 16 + 0 * 2 ^ 8 + 0) / 2 ^ 26 = 0 by decide))
      (by decide) (by decide)).2.2.1,
    (straight_line_run_inside rawObject (fun _ => 0) 1000
      (fun _ _ => show (0 : Nat) < 256 by decide)
      (fun _ _ => Or.inl (show (0 * 2 ^ 24 + 0 * 2 ^ 16 + 0 * 2 ^ 8 + 0) / 2 ^ 26 = 0 by decide))
      (by decide) (by decide)).2.2.2.2⟩

theorem loadWrapProgram_memory (i : Nat) :
    loadWrapProgram.memory i =
      if i = 3 then 0xFF else if i = 2 then 0xFF else if i = 1 then 0x08
      else if i = 0 then 0x8C else if i < 4096 then 0 else rawObject.memory i := by
  show (singleWordProgram rawObject 0x8C08FFFF).memory i = _
  rw [singleWordProgram_memory]

/-- C19, at a failing input. The initial machine over the memory image that holds the word
`0x8C08FFFF` (`LW $t0,-1($zero)`) at address 0 and zero elsewhere satisfies the hypotheses of
the claim: its cells are octets and every word-aligned word has opcode `0x23` or `0x00`. In
its first cycle the decoded instruction is an LW with effective address `0xFFFFFFFF`; the
bounds test, computed in `uint32_t`, lets the load through although its first index is outside
the 4096-byte array, so `execute` has no defined outcome and `run` under the default budget
1000 (or any budget of at least 1) does not end with a cycle counter of `min(n, 1024)`. -/
theorem straight_line_run_undefined_on_wrapped_load :
    loadWrapProgram = initialMachine rawObject loadWrapProgram.memory ∧
    (∀ i, i < 4096 → loadWrapProgram.memory i < 256) ∧
    (∀ k, k < 1024 →
      (loadWrapProgram.memory (4 * k) * 2 ^ 24 + loadWrapProgram.memory (4 * k + 1) * 2 ^ 16 +
        loadWrapProgram.memory (4 * k + 2) * 2 ^ 8 + loadWrapProgram.memory (4 * k + 3))
          / 2 ^ 26 = 0x00 ∨
      (loadWrapProgram.memory (4 * k) * 2 ^ 24 + loadWrapProgram.memory (4 * k + 1) * 2 ^ 16 +
        loadWrapProgram.memory (4 * k + 2) * 2 ^ 8 + loadWrapProgram.memory (4 * k + 3))
          / 2 ^ 26 = 0x08 ∨
      (loadWrapProgram.memory (4 * k) * 2 ^ 24 + loadWrapProgram.memory (4 * k + 1) * 2 ^ 16 +
        loadWrapProgram.memory (4 * k + 2) * 2 ^ 8 + loadWrapProgram.memory (4 * k + 3))
          / 2 ^ 26 = 0x23) ∧
    loadWrapState.opcode = 0x23 ∧ effectiveAddress loadWrapState = 4294967295 ∧
    (effectiveAddress loadWrapState + 3) % 4294967296 < MEMORY_SIZE ∧
    MEMORY_SIZE ≤ effectiveAddress loadWrapState ∧
    memoryAccessOutside loadWrapState = true ∧
    executeChecked loadWrapState = none ∧
    runChecked loadWrapProgram 1 = none ∧
    runChecked loadWrapProgram 1000 = none := by
  refine ⟨rfl, ?_, ?_, by decide, by decide, by decide, by decide, by decide, rfl, rfl, rfl⟩
  · intro i hi
    rw [loadWrapProgram_memory]
    split_ifs <;> omega
  · intro k hk
    simp only [loadWrapProgram_memory]
    rcases Nat.eq_zero_or_pos k with h0 | hpos
    · subst h0
      right; right
      norm_num
    · left
      rw [if_neg (by omega), if_neg (by omega), if_neg (by omega), if_neg (by omega),
        if_pos (by omega), if_neg (by omega), if_neg (by omega), if_neg (by omega),
        if_neg (by omega), if_pos (by omega), if_neg (by omega), if_neg (by omega),
        if_neg (by omega), if_neg (by omega), if_pos (by omega), if_neg (by omega),
        if_neg (by omega), if_neg (by omega), if_neg (by omega), if_pos (by omega)]
      norm_num

end Simulator
